import Mathlib

/-!
# TLS session resumption cache (lib/tls/openssl/openssl-session.c)

A shallow embedding of the per-vhost TLS session cache.

* The intrusive list `vh->tls_sessions` is a `List` of entries, head first.
  A pointer to a list member (`lws_tls_sco_t *ts`) is the position of the
  member in the list at the moment the pointer is used.
* Calls into collaborators that are not part of the file (the TLS library,
  the sorted-usec-list scheduler, the allocator, the vhost lock, the list
  primitives) are recorded, in program order, as a list of `Event`s returned
  next to the new vhost state.
* `assert` is the aborting one: a failed assertion ends the operation with
  `Fault.assertion`.
-/

set_option autoImplicit false

namespace TlsSession

/-! ## Data model -/

/-- Cache entry `lws_tls_sco_t`: `session` is the `SSL_SESSION *` value, `name`
is the over-allocated key that follows the struct (`&ts[1]`). The linkage
fields `list` and `sul_ttl` are represented by list membership and by the
scheduler events. -/
structure lws_tls_sco_t where
  session : Nat
  in_use : Bool
  expire_on_unused : Bool
  name : String
  deriving DecidableEq, Repr

/-- Part of `struct lws_vhost` the cache touches: `cache_enabled` is the truth
value of `vh->options & LWS_SERVER_OPTION_ENABLE_TLS_SESSION_CACHE`, and
`tls_sessions` is the owner list, head first. -/
structure lws_vhost where
  cache_enabled : Bool
  tls_sessions : List lws_tls_sco_t
  deriving DecidableEq, Repr

/-- Part of `struct lws` the cache touches: `a_vhost` tells whether
`wsi->a.vhost` is non-NULL, `ssl_session` is `SSL_get_session(wsi->tls.ssl)`,
`sa46_peer` is the numeric text of the peer address, `c_port` the port and
`tsi` the service thread index. -/
structure lws where
  a_vhost : Bool
  ssl_session : Nat
  sa46_peer : String
  c_port : Nat
  tsi : Nat
  deriving DecidableEq, Repr

/-- Calls made to the collaborators, in program order. Entries are named by
their key, which is what the source logs for them. -/
inductive Event where
  | lws_vhost_lock
  | lws_vhost_unlock
  | lws_dll2_add_tail (name : String)
  | lws_dll2_remove (name : String)
  | lws_sul_schedule (tsi : Nat) (name : String) (us : Nat)
  | lws_sul_cancel (name : String)
  | SSL_SESSION_free (session : Nat)
  | SSL_set_session (session : Nat)
  | lws_free (name : String)
  deriving DecidableEq, Repr

/-- Ways an operation can end without returning. `assertion` is a failed
`assert`, `null_deref` is the dereference of a NULL `wsi->a.vhost`, `dangling`
is the use of an entry pointer that names no member of the list. -/
inductive Fault where
  | assertion
  | null_deref
  | dangling
  deriving DecidableEq, Repr

/-- The handles passed to `SSL_SESSION_free`, in order. -/
def freed : List Event → List Nat
  | [] => []
  | Event.SSL_SESSION_free s :: rest => s :: freed rest
  | _ :: rest => freed rest

/-- The delays handed to `lws_sul_schedule`, in order. -/
def armed : List Event → List Nat
  | [] => []
  | Event.lws_sul_schedule _ _ us :: rest => us :: armed rest
  | _ :: rest => armed rest

/-- The handles passed to `SSL_set_session`, in order. -/
def attached : List Event → List Nat
  | [] => []
  | Event.SSL_set_session s :: rest => s :: attached rest
  | _ :: rest => attached rest

/-! ## Constants of the headers -/

/-- Value of the POSIX constant `INET6_ADDRSTRLEN`. -/
def INET6_ADDRSTRLEN : Nat := 46

/-- Value of `LWS_US_PER_SEC`, microseconds per second. -/
def LWS_US_PER_SEC : Nat := 1000000

/-! ## Key derivation -/

/-- Modelled from the spec: `lws_sa46_write_numeric_address` is not part of the
file. It leaves the numeric text of the address in the buffer, NUL-terminated
and within a budget of `len` bytes. -/
def lws_sa46_write_numeric_address (sa46 : String) (len : Nat) : List Char :=
  sa46.data.take (len - 1)

/-- Modelled from the spec: `lws_snprintf` is not part of the file. This is
`lws_snprintf(p, size, ":%u", port)`: colon and decimal port, cut to
`size - 1` characters. -/
def lws_snprintf_port (size : Nat) (port : Nat) : List Char :=
  (':' :: Nat.toDigits 10 port).take (size - 1)

/-- Key of a connection: the address text written with a budget of `len - 8`
bytes, then the port suffix written at `buf + strlen(buf)` with a budget of 8
bytes. Every caller passes `len = INET6_ADDRSTRLEN + 1 + 8 + 1`. -/
def lws_tls_session_name_from_wsi (wsi : lws) (len : Nat) : String :=
  let buf := lws_sa46_write_numeric_address wsi.sa46_peer (len - 8)
  String.mk (buf ++ lws_snprintf_port 8 wsi.c_port)

/-! ## List scan -/

/-- The loop `lws_start_foreach_dll ... if (cond) ... return` from the head:
position and value of the first member that satisfies `p`. -/
def lws_dll2_find (p : lws_tls_sco_t → Bool) : List lws_tls_sco_t → Option (Nat × lws_tls_sco_t)
  | [] => none
  | ts :: rest =>
    if p ts then some (0, ts)
    else (lws_dll2_find p rest).map (fun r => (r.1 + 1, r.2))

/-! ## Operations -/

/-- Events of one run of `__lws_tls_session_destroy` past its assertion:
`lws_sul_cancel`, `SSL_SESSION_free`, `lws_dll2_remove`, `lws_free`. -/
def destroy_events (ts : lws_tls_sco_t) : List Event :=
  [Event.lws_sul_cancel ts.name, Event.SSL_SESSION_free ts.session,
   Event.lws_dll2_remove ts.name, Event.lws_free ts.name]

/-- Destruction of the entry at position `i`: `assert(!ts->in_use)`, cancel the
timer, free the session, unlink, free the entry. -/
def __lws_tls_session_destroy (vh : lws_vhost) (i : Nat) :
    Except Fault (lws_vhost × List Event) :=
  match vh.tls_sessions[i]? with
  | none => Except.error Fault.dangling
  | some ts =>
    if ts.in_use then Except.error Fault.assertion
    else Except.ok ({ vh with tls_sessions := vh.tls_sessions.eraseIdx i }, destroy_events ts)

/-- The TTL callback for the entry at position `i`: an entry in use is only
marked, any other is destroyed under the vhost lock. -/
def lws_tls_session_ttl_exp (vh : lws_vhost) (i : Nat) :
    Except Fault (lws_vhost × List Event) :=
  match vh.tls_sessions[i]? with
  | none => Except.error Fault.dangling
  | some ts =>
    if ts.in_use then
      let ts1 := { ts with expire_on_unused := true };
      Except.ok ({ vh with tls_sessions := vh.tls_sessions.set i ts1 }, [])
    else
      match __lws_tls_session_destroy vh i with
      | Except.error f => Except.error f
      | Except.ok (vh1, ev) =>
        Except.ok (vh1, [Event.lws_vhost_lock] ++ ev ++ [Event.lws_vhost_unlock])

/-- Lookup by key: nothing when the cache option is unset, else the first
member whose name compares equal. -/
def __lws_tls_session_lookup_by_name (vh : lws_vhost) (name : String) :
    Option (Nat × lws_tls_sco_t) :=
  if !vh.cache_enabled then none
  else lws_dll2_find (fun ts => decide (name = ts.name)) vh.tls_sessions

/-- Reuse of a cached session by a client connection. -/
def lws_tls_reuse_session (wsi : lws) (vh : lws_vhost) :
    Except Fault (lws_vhost × List Event) :=
  if !wsi.a_vhost then Except.error Fault.null_deref
  else
    let buf := lws_tls_session_name_from_wsi wsi (INET6_ADDRSTRLEN + 1 + 8 + 1)
    match __lws_tls_session_lookup_by_name vh buf with
    | none => Except.ok (vh, [])
    | some (_, ts) =>
      if ts.in_use then Except.error Fault.assertion
      else Except.ok (vh, [Event.SSL_set_session ts.session])

/-- Release by a closing connection: the first member holding the
connection's session is marked unused and, if its TTL fired meanwhile,
destroyed. -/
def lws_tls_session_release (wsi : lws) (vh : lws_vhost) :
    Except Fault (lws_vhost × List Event) :=
  if !wsi.a_vhost || !vh.cache_enabled then Except.ok (vh, [])
  else
    match lws_dll2_find (fun ts => decide (ts.session = wsi.ssl_session)) vh.tls_sessions with
    | none => Except.ok (vh, [])
    | some (i, ts) =>
      if !ts.in_use then Except.error Fault.assertion
      else
        let ts1 := { ts with in_use := false };
        let vh1 := { vh with tls_sessions := vh.tls_sessions.set i ts1 };
        if ts.expire_on_unused then __lws_tls_session_destroy vh1 i
        else Except.ok (vh1, [])

/-- Create or update the entry for `name`. `malloc_ok` tells whether
`lws_malloc` returns memory. The result is the C return value, the new vhost
state and the events. `ttl` is an `unsigned int`, so the 64-bit product with
`LWS_US_PER_SEC` does not wrap. -/
def __lws_tls_session_create (vh : lws_vhost) (malloc_ok : Bool) (tsi : Nat)
    (session : Nat) (name : String) (ttl : Nat) : Nat × lws_vhost × List Event :=
  if !vh.cache_enabled then (0, vh, [])
  else
    match __lws_tls_session_lookup_by_name vh name with
    | none =>
      if !malloc_ok then (1, vh, [])
      else
        let ts : lws_tls_sco_t :=
          { session := 0, in_use := false, expire_on_unused := false, name := name }
        let i := vh.tls_sessions.length;
        let l := vh.tls_sessions ++ [ts];
        let ts1 := { ts with session := session, expire_on_unused := false, in_use := true };
        (0, { vh with tls_sessions := l.set i ts1 },
          [Event.lws_vhost_lock, Event.lws_dll2_add_tail name, Event.lws_vhost_unlock,
           Event.lws_sul_schedule tsi name (ttl * LWS_US_PER_SEC)])
    | some (i, ts) =>
      let ts1 := { ts with session := session, expire_on_unused := false, in_use := true };
      (0, { vh with tls_sessions := vh.tls_sessions.set i ts1 },
        [Event.SSL_SESSION_free ts.session,
         Event.lws_sul_schedule tsi name (ttl * LWS_US_PER_SEC)])

/-- Callback of `lws_dll2_foreach_safe` for the member at position `i`:
destroys it unless it is in use, and returns 0. -/
def lws_tls_session_destroy_dll (vh : lws_vhost) (i : Nat) :
    Except Fault (Nat × lws_vhost × List Event) :=
  match vh.tls_sessions[i]? with
  | none => Except.error Fault.dangling
  | some ts =>
    if !ts.in_use then
      match __lws_tls_session_destroy vh i with
      | Except.error f => Except.error f
      | Except.ok (vh1, ev) => Except.ok (0, vh1, ev)
    else Except.ok (0, vh, [])

/-- The walk `lws_dll2_foreach_safe`: `n` members are still to be visited and
the next one is at position `i`. The successor is saved before the callback
runs, so after a callback that unlinked the current member the walk goes on at
the same position. A non-zero callback result stops the walk. -/
def lws_dll2_foreach_safe (cb : lws_vhost → Nat → Except Fault (Nat × lws_vhost × List Event)) :
    Nat → Nat → lws_vhost → Except Fault (lws_vhost × List Event)
  | 0, _, vh => Except.ok (vh, [])
  | n + 1, i, vh =>
    match cb vh i with
    | Except.error f => Except.error f
    | Except.ok (r, vh1, ev1) =>
      if r ≠ 0 then Except.ok (vh1, ev1)
      else
        let j := if vh1.tls_sessions.length < vh.tls_sessions.length then i else i + 1
        match lws_dll2_foreach_safe cb n j vh1 with
        | Except.error f => Except.error f
        | Except.ok (vh2, ev2) => Except.ok (vh2, ev1 ++ ev2)

/-- Teardown of the vhost's cache: every member is visited once. -/
def lws_tls_session_vh_destroy (vh : lws_vhost) : Except Fault (lws_vhost × List Event) :=
  lws_dll2_foreach_safe lws_tls_session_destroy_dll vh.tls_sessions.length 0 vh

/-- The TLS library's new-session callback. `wsi` is the connection found in
the SSL object's ex-data, if any. The result 1 tells the library that the
cache keeps the session reference, 0 that it does not. -/
def lws_tls_session_new_cb (wsi : Option lws) (vh : lws_vhost) (malloc_ok : Bool)
    (sess : Nat) : Except Fault (Nat × lws_vhost × List Event) :=
  match wsi with
  | none => Except.ok (0, vh, [])
  | some w =>
    if !w.a_vhost then Except.error Fault.null_deref
    else
      let buf := lws_tls_session_name_from_wsi w (INET6_ADDRSTRLEN + 1 + 8 + 1)
      match __lws_tls_session_create vh malloc_ok w.tsi sess buf 300 with
      | (r, vh1, ev) =>
        if r ≠ 0 then Except.ok (0, vh1, ev)
        else Except.ok (1, vh1, ev)

/-! ## Sequences of operations -/

/-- The names passed to `lws_free`, in order: the entries whose memory was
released. -/
def released : List Event → List String
  | [] => []
  | Event.lws_free n :: rest => n :: released rest
  | _ :: rest => released rest

/-- Events of a teardown walk over `l`: the destruction events of the members
that are not in use, in list order. -/
def teardown_events : List lws_tls_sco_t → List Event
  | [] => []
  | ts :: rest =>
    if ts.in_use then teardown_events rest else destroy_events ts ++ teardown_events rest

/-- One operation on the cache of a vhost. `create` is the body of the
new-session notification, `fire` the TTL callback for the member at a position,
`release` the end of a connection, `teardown` the vhost teardown and `reuse` the
reuse attempt of a new client connection. -/
inductive Op where
  | create (malloc_ok : Bool) (tsi session : Nat) (name : String) (ttl : Nat)
  | fire (i : Nat)
  | release (wsi : lws)
  | teardown
  | reuse (wsi : lws)
  deriving DecidableEq, Repr

/-- Run one operation. -/
def step (vh : lws_vhost) : Op → Except Fault (lws_vhost × List Event)
  | Op.create m tsi session name ttl =>
    Except.ok ((__lws_tls_session_create vh m tsi session name ttl).2.1,
      (__lws_tls_session_create vh m tsi session name ttl).2.2)
  | Op.fire i => lws_tls_session_ttl_exp vh i
  | Op.release wsi => lws_tls_session_release wsi vh
  | Op.teardown => lws_tls_session_vh_destroy vh
  | Op.reuse wsi => lws_tls_reuse_session wsi vh

/-- Run operations in order, until one faults; the events are concatenated. -/
def run (vh : lws_vhost) : List Op → Except Fault (lws_vhost × List Event)
  | [] => Except.ok (vh, [])
  | op :: rest =>
    match step vh op with
    | Except.error f => Except.error f
    | Except.ok (vh1, ev1) =>
      match run vh1 rest with
      | Except.error f => Except.error f
      | Except.ok (vh2, ev2) => Except.ok (vh2, ev1 ++ ev2)

/-- Whether `op`, run on `vh`, is a release whose scan stops at the member
named `K`. -/
def hits (K : String) (vh : lws_vhost) : Op → Bool
  | Op.release wsi =>
    wsi.a_vhost && vh.cache_enabled &&
      match lws_dll2_find (fun ts => decide (ts.session = wsi.ssl_session)) vh.tls_sessions with
      | some (_, ts) => decide (ts.name = K)
      | none => false
  | _ => false

/-- No operation of the sequence, run from `vh`, is a release that stops at the
member named `K`. -/
def no_release_of (K : String) : lws_vhost → List Op → Bool
  | _, [] => true
  | vh, op :: rest =>
    !hits K vh op &&
      match step vh op with
      | Except.error _ => true
      | Except.ok (vh1, _) => no_release_of K vh1 rest

/-- The expiry record of key `K` across one operation: a TTL callback on the
member named `K` sets it, a create/update for `K` clears it, anything else
keeps it. -/
def fired_flag (K : String) (vh : lws_vhost) (b : Bool) : Op → Bool
  | Op.fire i => if (vh.tls_sessions[i]?).map (fun ts => ts.name) = some K then true else b
  | Op.create _ _ _ name _ => if name = K then false else b
  | _ => b

/-- Whether, in the sequence run from `vh`, the TTL callback ran on the member
named `K` after the last create/update for `K`; `b` is the record at the
start. -/
def fired_since_update (K : String) : lws_vhost → Bool → List Op → Bool
  | _, b, [] => b
  | vh, b, op :: rest =>
    match step vh op with
    | Except.error _ => b
    | Except.ok (vh1, _) => fired_since_update K vh1 (fired_flag K vh b op) rest

/-- The vhost has its cache option set and exactly one member named `K`, which
is in use and whose `expire_on_unused` is `b`. -/
def tracked (K : String) (vh : lws_vhost) (b : Bool) : Prop :=
  vh.cache_enabled = true ∧
  ∃ e, vh.tls_sessions.filter (fun x => decide (x.name = K)) = [e] ∧
    e.in_use = true ∧ e.expire_on_unused = b

/-! ## Reachability, timers, locks and handles -/

/-- What one successful operation does to the list and which collaborator calls
it makes, case by case. `idle` and `attach` leave the list alone; `add` and
`update` are the two branches of create/update; `mark` and `expire` are the two
branches of the TTL callback; `unuse` and `drop` are the two branches of a
release that found its member; `sweep` is the teardown walk. -/
inductive Effect (vh : lws_vhost) : Op → lws_vhost → List Event → Prop where
  | idle (op : Op) : Effect vh op vh []
  | attach (op : Op) (s : Nat) : Effect vh op vh [Event.SSL_set_session s]
  | add (tsi h : Nat) (K : String) (ttl : Nat)
      (hnone : ∀ e ∈ vh.tls_sessions, e.name ≠ K) :
      Effect vh (Op.create true tsi h K ttl)
        { vh with tls_sessions := vh.tls_sessions ++
            [{ session := h, in_use := true, expire_on_unused := false, name := K }] }
        [Event.lws_vhost_lock, Event.lws_dll2_add_tail K, Event.lws_vhost_unlock,
         Event.lws_sul_schedule tsi K (ttl * LWS_US_PER_SEC)]
  | update (m : Bool) (tsi h : Nat) (K : String) (ttl : Nat)
      (pre : List lws_tls_sco_t) (ts : lws_tls_sco_t) (post : List lws_tls_sco_t)
      (hl : vh.tls_sessions = pre ++ ts :: post) (hts : ts.name = K) :
      Effect vh (Op.create m tsi h K ttl)
        { vh with tls_sessions := pre ++
            { ts with session := h, expire_on_unused := false, in_use := true } :: post }
        [Event.SSL_SESSION_free ts.session,
         Event.lws_sul_schedule tsi K (ttl * LWS_US_PER_SEC)]
  | mark (op : Op) (pre : List lws_tls_sco_t) (ts : lws_tls_sco_t) (post : List lws_tls_sco_t)
      (hl : vh.tls_sessions = pre ++ ts :: post) (hu : ts.in_use = true) :
      Effect vh op
        { vh with tls_sessions := pre ++ { ts with expire_on_unused := true } :: post } []
  | expire (op : Op) (pre : List lws_tls_sco_t) (ts : lws_tls_sco_t)
      (post : List lws_tls_sco_t)
      (hl : vh.tls_sessions = pre ++ ts :: post) (hu : ts.in_use = false) :
      Effect vh op { vh with tls_sessions := pre ++ post }
        ([Event.lws_vhost_lock] ++ destroy_events ts ++ [Event.lws_vhost_unlock])
  | unuse (op : Op) (pre : List lws_tls_sco_t) (ts : lws_tls_sco_t)
      (post : List lws_tls_sco_t)
      (hl : vh.tls_sessions = pre ++ ts :: post) (hu : ts.in_use = true)
      (hx : ts.expire_on_unused = false) :
      Effect vh op { vh with tls_sessions := pre ++ { ts with in_use := false } :: post } []
  | drop (op : Op) (pre : List lws_tls_sco_t) (ts : lws_tls_sco_t) (post : List lws_tls_sco_t)
      (hl : vh.tls_sessions = pre ++ ts :: post) (hu : ts.in_use = true)
      (hx : ts.expire_on_unused = true) :
      Effect vh op { vh with tls_sessions := pre ++ post } (destroy_events ts)
  | sweep (op : Op) :
      Effect vh op { vh with tls_sessions := vh.tls_sessions.filter (fun ts => ts.in_use) }
        (teardown_events vh.tls_sessions)

/-- Modelled from the spec: the sorted-usec-list scheduler is not part of the
file. `lws_sul_schedule` (re)arms the timer of the named entry and
`lws_sul_cancel` disarms it; this is the effect of one call on the list of
entries whose timer is armed. A timer that fired is no longer armed, so the
list is an upper bound of the armed timers. -/
def timer_step (armed_now : List String) : Event → List String
  | Event.lws_sul_schedule _ name _ => name :: armed_now.filter (fun n => decide (n ≠ name))
  | Event.lws_sul_cancel name => armed_now.filter (fun n => decide (n ≠ name))
  | _ => armed_now

/-- The entries whose timer is armed after the calls `ev`, starting from the
armed list `armed_now`. -/
def pending_timers (armed_now : List String) (ev : List Event) : List String :=
  ev.foldl timer_step armed_now

/-- Whether every `lws_dll2_add_tail` and `lws_dll2_remove` of the trace happens
between an `lws_vhost_lock` and the following `lws_vhost_unlock` of the same
trace; `held` tells whether the lock is held at the start. -/
def mutations_locked : Bool → List Event → Bool
  | _, [] => true
  | _, Event.lws_vhost_lock :: rest => mutations_locked true rest
  | _, Event.lws_vhost_unlock :: rest => mutations_locked false rest
  | held, Event.lws_dll2_add_tail _ :: rest => held && mutations_locked held rest
  | held, Event.lws_dll2_remove _ :: rest => held && mutations_locked held rest
  | held, _ :: rest => mutations_locked held rest

/-- The session handles supplied by the create/update operations of a
sequence, in order. -/
def supplied : List Op → List Nat
  | [] => []
  | Op.create _ _ session _ _ :: rest => session :: supplied rest
  | _ :: rest => supplied rest

/-- The number a list of decimal digit characters stands for. -/
def digits_value (l : List Char) : Nat :=
  l.foldl (fun a c => a * 10 + (c.toNat - 48)) 0

/-! ## Facts about positions in a list -/

theorem getElem?_mid {α : Type} (pre post : List α) (x : α) :
    (pre ++ x :: post)[pre.length]? = some x := by
  induction pre with
  | nil => simp
  | cons a pre ih => simpa using ih

theorem set_mid {α : Type} (pre post : List α) (x y : α) :
    (pre ++ x :: post).set pre.length y = pre ++ y :: post := by
  induction pre with
  | nil => simp
  | cons a pre ih => simp

theorem eraseIdx_mid {α : Type} (pre post : List α) (x : α) :
    (pre ++ x :: post).eraseIdx pre.length = pre ++ post := by
  induction pre with
  | nil => simp
  | cons a pre ih => simpa using ih

theorem getElem?_split {α : Type} (l : List α) (i : Nat) (x : α) (h : l[i]? = some x) :
    ∃ pre post, l = pre ++ x :: post ∧ i = pre.length := by
  induction l generalizing i with
  | nil => simp at h
  | cons a l ih =>
    cases i with
    | zero =>
      simp at h
      exact ⟨[], l, by simp [h], rfl⟩
    | succ i =>
      simp at h
      obtain ⟨pre, post, h1, h2⟩ := ih i h
      exact ⟨a :: pre, post, by simp [h1], by simp [h2]⟩

/-! ## Facts about the list scan -/

theorem find_none (p : lws_tls_sco_t → Bool) (l : List lws_tls_sco_t) :
    lws_dll2_find p l = none ↔ ∀ e ∈ l, p e = false := by
  induction l with
  | nil => simp [lws_dll2_find]
  | cons a l ih =>
    by_cases h : p a = true
    · simp [lws_dll2_find, h]
    · simp [lws_dll2_find, h, ih]

theorem find_mid (p : lws_tls_sco_t → Bool) (pre post : List lws_tls_sco_t)
    (ts : lws_tls_sco_t) (hpre : ∀ e ∈ pre, p e = false) (hts : p ts = true) :
    lws_dll2_find p (pre ++ ts :: post) = some (pre.length, ts) := by
  induction pre with
  | nil => simp [lws_dll2_find, hts]
  | cons a pre ih =>
    have ha : p a = false := hpre a (by simp)
    have ih1 := ih (fun e he => hpre e (by simp [he]))
    simp [lws_dll2_find, ha, ih1]

theorem find_some (p : lws_tls_sco_t → Bool) (l : List lws_tls_sco_t) (i : Nat)
    (ts : lws_tls_sco_t) (h : lws_dll2_find p l = some (i, ts)) :
    ∃ pre post, l = pre ++ ts :: post ∧ i = pre.length ∧ p ts = true ∧
      ∀ e ∈ pre, p e = false := by
  induction l generalizing i with
  | nil => simp [lws_dll2_find] at h
  | cons a l ih =>
    by_cases ha : p a = true
    · simp [lws_dll2_find, ha] at h
      obtain ⟨h1, h2⟩ := h
      subst h1 h2
      exact ⟨[], l, rfl, rfl, ha, by simp⟩
    · simp [lws_dll2_find, ha] at h
      obtain ⟨j, hj, h2⟩ := h
      obtain ⟨pre, post, e1, e2, e3, e4⟩ := ih j hj
      refine ⟨a :: pre, post, by simp [e1], by simp [e2, ← h2], e3, ?_⟩
      intro e he
      simp at he
      rcases he with rfl | he
      · simpa using ha
      · exact e4 e he

/-! ## The branches of create/update -/

theorem lookup_enabled (vh : lws_vhost) (K : String) (hen : vh.cache_enabled = true) :
    __lws_tls_session_lookup_by_name vh K =
      lws_dll2_find (fun ts => decide (K = ts.name)) vh.tls_sessions := by
  simp [__lws_tls_session_lookup_by_name, hen]

theorem create_new (vh : lws_vhost) (tsi h : Nat) (K : String) (ttl : Nat)
    (hen : vh.cache_enabled = true) (hnone : ∀ e ∈ vh.tls_sessions, e.name ≠ K) :
    __lws_tls_session_create vh true tsi h K ttl =
      (0, { vh with tls_sessions := vh.tls_sessions ++
              [{ session := h, in_use := true, expire_on_unused := false, name := K }] },
       [Event.lws_vhost_lock, Event.lws_dll2_add_tail K, Event.lws_vhost_unlock,
        Event.lws_sul_schedule tsi K (ttl * LWS_US_PER_SEC)]) := by
  have hf : lws_dll2_find (fun ts => decide (K = ts.name)) vh.tls_sessions = none := by
    rw [find_none]
    intro e he
    simpa using fun hK => hnone e he hK.symm
  simp [__lws_tls_session_create, hen, lookup_enabled, hf, set_mid]

theorem create_update (vh : lws_vhost) (m : Bool) (tsi h : Nat) (K : String) (ttl : Nat)
    (pre post : List lws_tls_sco_t) (ts : lws_tls_sco_t)
    (hen : vh.cache_enabled = true) (hl : vh.tls_sessions = pre ++ ts :: post)
    (hts : ts.name = K) (hpre : ∀ e ∈ pre, e.name ≠ K) :
    __lws_tls_session_create vh m tsi h K ttl =
      (0, { vh with tls_sessions := pre ++
              { ts with session := h, expire_on_unused := false, in_use := true } :: post },
       [Event.SSL_SESSION_free ts.session,
        Event.lws_sul_schedule tsi K (ttl * LWS_US_PER_SEC)]) := by
  have hf : lws_dll2_find (fun ts => decide (K = ts.name)) (pre ++ ts :: post) =
      some (pre.length, ts) := by
    apply find_mid
    · intro e he
      simpa using fun hK => hpre e he hK.symm
    · simp [hts]
  simp [__lws_tls_session_create, hen, lookup_enabled, hl, hf, set_mid]

theorem create_fail (vh : lws_vhost) (tsi h : Nat) (K : String) (ttl : Nat)
    (hen : vh.cache_enabled = true) (hnone : ∀ e ∈ vh.tls_sessions, e.name ≠ K) :
    __lws_tls_session_create vh false tsi h K ttl = (1, vh, []) := by
  have hf : lws_dll2_find (fun ts => decide (K = ts.name)) vh.tls_sessions = none := by
    rw [find_none]
    intro e he
    simpa using fun hK => hnone e he hK.symm
  simp [__lws_tls_session_create, hen, lookup_enabled, hf]

/-- Every list either has no member named `K` or splits at its first one. -/
theorem split_first_name (l : List lws_tls_sco_t) (K : String) :
    (∀ e ∈ l, e.name ≠ K) ∨
    ∃ pre ts post, l = pre ++ ts :: post ∧ ts.name = K ∧ ∀ e ∈ pre, e.name ≠ K := by
  cases hf : lws_dll2_find (fun ts => decide (K = ts.name)) l with
  | none =>
    left
    rw [find_none] at hf
    intro e he hK
    simpa [hK] using hf e he
  | some r =>
    right
    obtain ⟨pre, post, h1, _, h3, h4⟩ := find_some _ l r.1 r.2 hf
    refine ⟨pre, r.2, post, h1, ?_, ?_⟩
    · exact (of_decide_eq_true h3).symm
    · intro e he hK
      simpa [hK] using h4 e he

/-! ## Destruction, expiry and teardown -/

theorem destroy_mid (vh : lws_vhost) (pre post : List lws_tls_sco_t) (ts : lws_tls_sco_t)
    (hl : vh.tls_sessions = pre ++ ts :: post) (hu : ts.in_use = false) :
    __lws_tls_session_destroy vh pre.length =
      Except.ok ({ vh with tls_sessions := pre ++ post }, destroy_events ts) := by
  have hg : vh.tls_sessions[pre.length]? = some ts := by rw [hl]; exact getElem?_mid _ _ _
  simp only [__lws_tls_session_destroy, hg]
  simp [hl, eraseIdx_mid, hu]

theorem ttl_exp_mark (vh : lws_vhost) (pre post : List lws_tls_sco_t) (ts : lws_tls_sco_t)
    (hl : vh.tls_sessions = pre ++ ts :: post) (hu : ts.in_use = true) :
    lws_tls_session_ttl_exp vh pre.length =
      Except.ok ({ vh with tls_sessions := pre ++ { ts with expire_on_unused := true } :: post },
        []) := by
  have hg : vh.tls_sessions[pre.length]? = some ts := by rw [hl]; exact getElem?_mid _ _ _
  simp only [lws_tls_session_ttl_exp, hg]
  simp [hl, hu, set_mid]

theorem ttl_exp_destroy (vh : lws_vhost) (pre post : List lws_tls_sco_t) (ts : lws_tls_sco_t)
    (hl : vh.tls_sessions = pre ++ ts :: post) (hu : ts.in_use = false) :
    lws_tls_session_ttl_exp vh pre.length =
      Except.ok ({ vh with tls_sessions := pre ++ post },
        [Event.lws_vhost_lock] ++ destroy_events ts ++ [Event.lws_vhost_unlock]) := by
  have hg : vh.tls_sessions[pre.length]? = some ts := by rw [hl]; exact getElem?_mid _ _ _
  simp only [lws_tls_session_ttl_exp, hg, destroy_mid vh pre post ts hl hu]
  simp [hu]

theorem freed_destroy_events (ts : lws_tls_sco_t) : freed (destroy_events ts) = [ts.session] := rfl

theorem freed_append (a b : List Event) : freed (a ++ b) = freed a ++ freed b := by
  induction a with
  | nil => rfl
  | cons e a ih => cases e <;> simp [freed, ih]

theorem foreach_safe_destroy (suf : List lws_tls_sco_t) :
    ∀ (pre : List lws_tls_sco_t) (vh : lws_vhost), vh.tls_sessions = pre ++ suf →
      lws_dll2_foreach_safe lws_tls_session_destroy_dll suf.length pre.length vh =
        Except.ok ({ vh with tls_sessions := pre ++ suf.filter (fun ts => ts.in_use) },
          teardown_events suf) := by
  induction suf with
  | nil =>
    intro pre vh hl
    simp [lws_dll2_foreach_safe, teardown_events, ← hl]
  | cons ts suf ih =>
    intro pre vh hl
    by_cases hu : ts.in_use = true
    · have hg : vh.tls_sessions[pre.length]? = some ts := by rw [hl]; exact getElem?_mid _ _ _
      have hcb : lws_tls_session_destroy_dll vh pre.length = Except.ok (0, vh, []) := by
        simp only [lws_tls_session_destroy_dll, hg]
        simp [hu]
      have hl1 : vh.tls_sessions = (pre ++ [ts]) ++ suf := by simp [hl]
      have ih1 := ih (pre ++ [ts]) vh hl1
      simp only [List.length_append, List.length_singleton] at ih1
      simp [lws_dll2_foreach_safe, hcb, ih1, teardown_events, hu]
    · have hu1 : ts.in_use = false := by simpa using hu
      have hg : vh.tls_sessions[pre.length]? = some ts := by rw [hl]; exact getElem?_mid _ _ _
      have hcb : lws_tls_session_destroy_dll vh pre.length =
          Except.ok (0, { vh with tls_sessions := pre ++ suf }, destroy_events ts) := by
        simp only [lws_tls_session_destroy_dll, hg, destroy_mid vh pre suf ts hl hu1]
        simp [hu1]
      have ih1 := ih pre { vh with tls_sessions := pre ++ suf } rfl
      simp [lws_dll2_foreach_safe, hcb, hl, ih1, teardown_events, hu1]

theorem vh_destroy_eq (vh : lws_vhost) :
    lws_tls_session_vh_destroy vh =
      Except.ok ({ vh with tls_sessions := vh.tls_sessions.filter (fun ts => ts.in_use) },
        teardown_events vh.tls_sessions) := by
  have h := foreach_safe_destroy vh.tls_sessions [] vh rfl
  simpa [lws_tls_session_vh_destroy] using h

theorem freed_teardown_events (l : List lws_tls_sco_t) :
    freed (teardown_events l) =
      (l.filter (fun ts => !ts.in_use)).map (fun ts => ts.session) := by
  induction l with
  | nil => rfl
  | cons ts l ih =>
    by_cases hu : ts.in_use = true
    · simp [teardown_events, hu, ih]
    · have hu1 : ts.in_use = false := by simpa using hu
      simp [teardown_events, hu1, freed_append, freed_destroy_events, ih]

/-! ## Release -/

theorem release_miss (wsi : lws) (vh : lws_vhost)
    (hmiss : ∀ e ∈ vh.tls_sessions, e.session ≠ wsi.ssl_session) :
    lws_tls_session_release wsi vh = Except.ok (vh, []) := by
  have hf : lws_dll2_find (fun ts => decide (ts.session = wsi.ssl_session)) vh.tls_sessions
      = none := by
    rw [find_none]
    intro e he
    simpa using hmiss e he
  unfold lws_tls_session_release
  split
  · rfl
  · simp only [hf]

theorem release_find (wsi : lws) (pre post : List lws_tls_sco_t) (ts : lws_tls_sco_t)
    (hts : ts.session = wsi.ssl_session) (hpre : ∀ e ∈ pre, e.session ≠ wsi.ssl_session) :
    lws_dll2_find (fun ts => decide (ts.session = wsi.ssl_session)) (pre ++ ts :: post)
      = some (pre.length, ts) := by
  apply find_mid
  · intro e he
    simpa using hpre e he
  · simpa using hts

theorem release_keep (wsi : lws) (vh : lws_vhost) (pre post : List lws_tls_sco_t)
    (ts : lws_tls_sco_t) (hw : wsi.a_vhost = true) (hen : vh.cache_enabled = true)
    (hl : vh.tls_sessions = pre ++ ts :: post) (hts : ts.session = wsi.ssl_session)
    (hpre : ∀ e ∈ pre, e.session ≠ wsi.ssl_session)
    (hu : ts.in_use = true) (hx : ts.expire_on_unused = false) :
    lws_tls_session_release wsi vh =
      Except.ok ({ vh with tls_sessions := pre ++ { ts with in_use := false } :: post }, []) := by
  simp only [lws_tls_session_release, hl, release_find wsi pre post ts hts hpre]
  simp [hw, hen, hu, hx, set_mid]

theorem release_expire (wsi : lws) (vh : lws_vhost) (pre post : List lws_tls_sco_t)
    (ts : lws_tls_sco_t) (hw : wsi.a_vhost = true) (hen : vh.cache_enabled = true)
    (hl : vh.tls_sessions = pre ++ ts :: post) (hts : ts.session = wsi.ssl_session)
    (hpre : ∀ e ∈ pre, e.session ≠ wsi.ssl_session)
    (hu : ts.in_use = true) (hx : ts.expire_on_unused = true) :
    lws_tls_session_release wsi vh =
      Except.ok ({ vh with tls_sessions := pre ++ post }, destroy_events ts) := by
  simp only [lws_tls_session_release, hl, release_find wsi pre post ts hts hpre]
  simp only [set_mid]
  have hd := destroy_mid
    { vh with tls_sessions := pre ++ { ts with in_use := false } :: post } pre post
    { ts with in_use := false } rfl rfl
  simp only [hen, hx] at hd
  simp [hw, hen, hu, hx, hd, destroy_events]

theorem release_assert (wsi : lws) (vh : lws_vhost) (pre post : List lws_tls_sco_t)
    (ts : lws_tls_sco_t) (hw : wsi.a_vhost = true) (hen : vh.cache_enabled = true)
    (hl : vh.tls_sessions = pre ++ ts :: post) (hts : ts.session = wsi.ssl_session)
    (hpre : ∀ e ∈ pre, e.session ≠ wsi.ssl_session) (hu : ts.in_use = false) :
    lws_tls_session_release wsi vh = Except.error Fault.assertion := by
  simp only [lws_tls_session_release, hl, release_find wsi pre post ts hts hpre]
  simp [hw, hen, hu]

/-! ## Tracking one key through a sequence -/

theorem released_append (a b : List Event) : released (a ++ b) = released a ++ released b := by
  induction a with
  | nil => rfl
  | cons e a ih => cases e <;> simp [released, ih]

theorem released_destroy_events (ts : lws_tls_sco_t) :
    released (destroy_events ts) = [ts.name] := rfl

theorem released_teardown_events (l : List lws_tls_sco_t) :
    released (teardown_events l) =
      (l.filter (fun ts => !ts.in_use)).map (fun ts => ts.name) := by
  induction l with
  | nil => rfl
  | cons ts l ih =>
    by_cases hu : ts.in_use = true
    · simp [teardown_events, hu, ih]
    · have hu1 : ts.in_use = false := by simpa using hu
      simp [teardown_events, hu1, released_append, released_destroy_events, ih]

theorem filter_mid_hit (q : lws_tls_sco_t → Bool) (p1 p2 : List lws_tls_sco_t)
    (y e : lws_tls_sco_t) (h : (p1 ++ y :: p2).filter q = [e]) (hy : q y = true) :
    p1.filter q = [] ∧ y = e ∧ p2.filter q = [] := by
  rw [List.filter_append, List.filter_cons_of_pos hy] at h
  cases h1 : p1.filter q with
  | nil =>
    rw [h1] at h
    simp only [List.nil_append, List.cons.injEq] at h
    exact ⟨rfl, h.1, h.2⟩
  | cons a t =>
    rw [h1] at h
    simp at h

theorem filter_mid_miss (q : lws_tls_sco_t → Bool) (p1 p2 : List lws_tls_sco_t)
    (y : lws_tls_sco_t) (hy : q y = false) :
    (p1 ++ y :: p2).filter q = p1.filter q ++ p2.filter q := by
  simp [List.filter_append, List.filter_cons, hy]

theorem tracked_mem (K : String) (l : List lws_tls_sco_t) (e : lws_tls_sco_t)
    (hfe : l.filter (fun x => decide (x.name = K)) = [e]) : e ∈ l ∧ e.name = K := by
  have h : e ∈ l.filter (fun x => decide (x.name = K)) := by rw [hfe]; simp
  simpa using h

theorem create_tracked (K : String) (vh : lws_vhost) (b m : Bool) (tsi session : Nat)
    (name : String) (ttl : Nat) (hinv : tracked K vh b) :
    tracked K (__lws_tls_session_create vh m tsi session name ttl).2.1
      (if name = K then false else b) ∧
    K ∉ released (__lws_tls_session_create vh m tsi session name ttl).2.2 := by
  obtain ⟨hen, e, hfe, heu, hex⟩ := hinv
  obtain ⟨hem, heK⟩ := tracked_mem K _ e hfe
  rcases split_first_name vh.tls_sessions name with hnone | ⟨pre, ts, post, hl, hts, hpre⟩
  · have hne : name ≠ K := fun h => hnone e hem (heK.trans h.symm)
    cases m with
    | false =>
      rw [create_fail vh tsi session name ttl hen hnone]
      simp only [hne, if_false]
      exact ⟨⟨hen, e, hfe, heu, hex⟩, by simp [released]⟩
    | true =>
      rw [create_new vh tsi session name ttl hen hnone]
      simp only [hne, if_false]
      refine ⟨⟨hen, e, ?_, heu, hex⟩, by simp [released]⟩
      simp [List.filter_append, hfe, List.filter_cons, hne]
  · rw [create_update vh m tsi session name ttl pre post ts hen hl hts hpre]
    by_cases hK : name = K
    · subst hK
      rw [hl] at hfe
      obtain ⟨h1, _, h2⟩ := filter_mid_hit _ pre post ts e hfe (by simp [hts])
      simp only [if_true]
      refine ⟨⟨hen, { ts with session := session, expire_on_unused := false, in_use := true },
        ?_, rfl, rfl⟩, by simp [released]⟩
      simp [List.filter_append, List.filter_cons, h1, h2, hts]
    · have hq : (fun x : lws_tls_sco_t => decide (x.name = K)) ts = false := by
        simp [hts, hK]
      rw [hl, filter_mid_miss _ pre post ts hq] at hfe
      simp only [hK, if_false]
      refine ⟨⟨hen, e, ?_, heu, hex⟩, by simp [released]⟩
      rw [← hfe]
      apply filter_mid_miss
      simp [hts, hK]

theorem fire_tracked (K : String) (vh vh1 : lws_vhost) (ev : List Event) (i : Nat) (b : Bool)
    (hinv : tracked K vh b) (hstep : lws_tls_session_ttl_exp vh i = Except.ok (vh1, ev)) :
    tracked K vh1
      (if (vh.tls_sessions[i]?).map (fun ts => ts.name) = some K then true else b) ∧
    K ∉ released ev := by
  obtain ⟨hen, e, hfe, heu, hex⟩ := hinv
  cases hg : vh.tls_sessions[i]? with
  | none => simp [lws_tls_session_ttl_exp, hg] at hstep
  | some y =>
    obtain ⟨p1, p2, hl, hi⟩ := getElem?_split _ _ _ hg
    subst hi
    rw [hl] at hfe
    by_cases hu : y.in_use = true
    · rw [ttl_exp_mark vh p1 p2 y hl hu] at hstep
      simp only [Except.ok.injEq, Prod.mk.injEq] at hstep
      obtain ⟨rfl, rfl⟩ := hstep
      by_cases hK : y.name = K
      · obtain ⟨h1, _, h2⟩ := filter_mid_hit _ p1 p2 y e hfe (by simp [hK])
        refine ⟨⟨hen, { y with expire_on_unused := true }, ?_, hu, ?_⟩, by simp [released]⟩
        · simp [List.filter_append, List.filter_cons, h1, h2, hK]
        · simp [hK]
      · have hq : (fun x : lws_tls_sco_t => decide (x.name = K)) y = false := by simp [hK]
        rw [filter_mid_miss _ p1 p2 y hq] at hfe
        refine ⟨⟨hen, e, ?_, heu, ?_⟩, by simp [released]⟩
        · rw [← hfe]
          apply filter_mid_miss
          simp [hK]
        · simp [hK, hex]
    · have hu1 : y.in_use = false := by simpa using hu
      rw [ttl_exp_destroy vh p1 p2 y hl hu1] at hstep
      simp only [Except.ok.injEq, Prod.mk.injEq] at hstep
      obtain ⟨rfl, rfl⟩ := hstep
      have hK : y.name ≠ K := by
        intro hK
        obtain ⟨_, h0, _⟩ := filter_mid_hit _ p1 p2 y e hfe (by simp [hK])
        rw [h0] at hu1
        simp [heu] at hu1
      have hq : (fun x : lws_tls_sco_t => decide (x.name = K)) y = false := by simp [hK]
      rw [filter_mid_miss _ p1 p2 y hq] at hfe
      refine ⟨⟨hen, e, ?_, heu, ?_⟩, ?_⟩
      · simpa [List.filter_append] using hfe
      · simp [hK, hex]
      · simp [released_append, released_destroy_events, released]
        exact fun h => hK h.symm

theorem release_tracked (K : String) (vh vh1 : lws_vhost) (ev : List Event) (wsi : lws)
    (b : Bool) (hinv : tracked K vh b) (hhit : hits K vh (Op.release wsi) = false)
    (hstep : lws_tls_session_release wsi vh = Except.ok (vh1, ev)) :
    tracked K vh1 b ∧ K ∉ released ev := by
  obtain ⟨hen, e, hfe, heu, hex⟩ := hinv
  by_cases hw : wsi.a_vhost = true
  · cases hf : lws_dll2_find (fun ts => decide (ts.session = wsi.ssl_session))
        vh.tls_sessions with
    | none =>
      rw [find_none] at hf
      rw [release_miss wsi vh (fun x hx => by simpa using hf x hx)] at hstep
      simp only [Except.ok.injEq, Prod.mk.injEq] at hstep
      obtain ⟨rfl, rfl⟩ := hstep
      exact ⟨⟨hen, e, hfe, heu, hex⟩, by simp [released]⟩
    | some r =>
      obtain ⟨pre, post, hl, _, hts0, hpre0⟩ := find_some _ _ r.1 r.2 hf
      have hts : r.2.session = wsi.ssl_session := by simpa using hts0
      have hpre : ∀ x ∈ pre, x.session ≠ wsi.ssl_session := fun x hx => by
        simpa using hpre0 x hx
      have hK : r.2.name ≠ K := by
        simpa [hits, hw, hen, hf] using hhit
      have hq : (fun x : lws_tls_sco_t => decide (x.name = K)) r.2 = false := by simp [hK]
      rw [hl, filter_mid_miss _ pre post r.2 hq] at hfe
      by_cases hu : r.2.in_use = true
      · by_cases hx : r.2.expire_on_unused = true
        · rw [release_expire wsi vh pre post r.2 hw hen hl hts hpre hu hx] at hstep
          simp only [Except.ok.injEq, Prod.mk.injEq] at hstep
          obtain ⟨rfl, rfl⟩ := hstep
          refine ⟨⟨hen, e, ?_, heu, hex⟩, ?_⟩
          · simpa [List.filter_append] using hfe
          · simp [released_destroy_events]
            exact fun h => hK h.symm
        · have hx1 : r.2.expire_on_unused = false := by simpa using hx
          rw [release_keep wsi vh pre post r.2 hw hen hl hts hpre hu hx1] at hstep
          simp only [Except.ok.injEq, Prod.mk.injEq] at hstep
          obtain ⟨rfl, rfl⟩ := hstep
          refine ⟨⟨hen, e, ?_, heu, hex⟩, by simp [released]⟩
          rw [← hfe]
          apply filter_mid_miss
          simp [hK]
      · have hu1 : r.2.in_use = false := by simpa using hu
        rw [release_assert wsi vh pre post r.2 hw hen hl hts hpre hu1] at hstep
        simp at hstep
  · have hr : lws_tls_session_release wsi vh = Except.ok (vh, []) := by
      simp [lws_tls_session_release, hw]
    rw [hr] at hstep
    simp only [Except.ok.injEq, Prod.mk.injEq] at hstep
    obtain ⟨rfl, rfl⟩ := hstep
    exact ⟨⟨hen, e, hfe, heu, hex⟩, by simp [released]⟩

theorem teardown_tracked (K : String) (vh vh1 : lws_vhost) (ev : List Event) (b : Bool)
    (hinv : tracked K vh b) (hstep : lws_tls_session_vh_destroy vh = Except.ok (vh1, ev)) :
    tracked K vh1 b ∧ K ∉ released ev := by
  obtain ⟨hen, e, hfe, heu, hex⟩ := hinv
  rw [vh_destroy_eq] at hstep
  simp only [Except.ok.injEq, Prod.mk.injEq] at hstep
  obtain ⟨rfl, rfl⟩ := hstep
  refine ⟨⟨hen, e, ?_, heu, hex⟩, ?_⟩
  · have hc : (vh.tls_sessions.filter (fun ts => ts.in_use)).filter
          (fun x => decide (x.name = K)) =
        (vh.tls_sessions.filter (fun x => decide (x.name = K))).filter
          (fun ts => ts.in_use) := by
      simp [List.filter_filter, Bool.and_comm]
    show (vh.tls_sessions.filter (fun ts => ts.in_use)).filter
      (fun x => decide (x.name = K)) = [e]
    rw [hc, hfe]
    simp [heu]
  · rw [released_teardown_events]
    intro hmem
    rw [List.mem_map] at hmem
    obtain ⟨y, hy, hyK⟩ := hmem
    rw [List.mem_filter] at hy
    have hy2 : y ∈ vh.tls_sessions.filter (fun x => decide (x.name = K)) := by
      rw [List.mem_filter]
      exact ⟨hy.1, by simpa using hyK⟩
    rw [hfe] at hy2
    simp only [List.mem_singleton] at hy2
    rw [hy2] at hy
    simp [heu] at hy

theorem reuse_tracked (K : String) (vh vh1 : lws_vhost) (ev : List Event) (wsi : lws)
    (b : Bool) (hinv : tracked K vh b)
    (hstep : lws_tls_reuse_session wsi vh = Except.ok (vh1, ev)) :
    tracked K vh1 b ∧ K ∉ released ev := by
  unfold lws_tls_reuse_session at hstep
  split at hstep
  · simp at hstep
  · simp only at hstep
    split at hstep
    · simp only [Except.ok.injEq, Prod.mk.injEq] at hstep
      obtain ⟨rfl, rfl⟩ := hstep
      exact ⟨hinv, by simp [released]⟩
    · split at hstep
      · simp at hstep
      · simp only [Except.ok.injEq, Prod.mk.injEq] at hstep
        obtain ⟨rfl, rfl⟩ := hstep
        exact ⟨hinv, by simp [released]⟩

theorem step_tracked (K : String) (vh vh1 : lws_vhost) (ev : List Event) (op : Op) (b : Bool)
    (hinv : tracked K vh b) (hhit : hits K vh op = false)
    (hstep : step vh op = Except.ok (vh1, ev)) :
    tracked K vh1 (fired_flag K vh b op) ∧ K ∉ released ev := by
  cases op with
  | create m tsi session name ttl =>
    simp only [step, Except.ok.injEq, Prod.mk.injEq] at hstep
    obtain ⟨rfl, rfl⟩ := hstep
    exact create_tracked K vh b m tsi session name ttl hinv
  | fire i => exact fire_tracked K vh vh1 ev i b hinv hstep
  | release wsi => exact release_tracked K vh vh1 ev wsi b hinv hhit hstep
  | teardown => exact teardown_tracked K vh vh1 ev b hinv hstep
  | reuse wsi => exact reuse_tracked K vh vh1 ev wsi b hinv hstep

theorem run_tracked (K : String) (ops : List Op) :
    ∀ (vh vh1 : lws_vhost) (ev : List Event) (b : Bool), tracked K vh b →
      no_release_of K vh ops = true → run vh ops = Except.ok (vh1, ev) →
      tracked K vh1 (fired_since_update K vh b ops) ∧ K ∉ released ev := by
  induction ops with
  | nil =>
    intro vh vh1 ev b hinv _ hrun
    simp only [run, Except.ok.injEq, Prod.mk.injEq] at hrun
    obtain ⟨rfl, rfl⟩ := hrun
    exact ⟨hinv, by simp [released]⟩
  | cons op rest ih =>
    intro vh vh1 ev b hinv hno hrun
    cases hs : step vh op with
    | error f => simp [run, hs] at hrun
    | ok r =>
      obtain ⟨vhm, evm⟩ := r
      cases hr : run vhm rest with
      | error f => simp [run, hs, hr] at hrun
      | ok r2 =>
        obtain ⟨vh2, ev2⟩ := r2
        simp only [run, hs, hr, Except.ok.injEq, Prod.mk.injEq] at hrun
        obtain ⟨rfl, rfl⟩ := hrun
        simp only [no_release_of, hs, Bool.and_eq_true, Bool.not_eq_true'] at hno
        obtain ⟨h1, h2⟩ := step_tracked K vh vhm evm op b hinv hno.1 hs
        obtain ⟨h3, h4⟩ := ih vhm vh2 ev2 _ h1 hno.2 hr
        refine ⟨?_, ?_⟩
        · simpa [fired_since_update, hs] using h3
        · simp [released_append, h2, h4]

theorem filter_nil_names (K : String) (l : List lws_tls_sco_t) :
    l.filter (fun x => decide (x.name = K)) = [] ↔ ∀ x ∈ l, x.name ≠ K := by
  rw [List.filter_eq_nil_iff]
  constructor
  · intro h x hx
    simpa using h x hx
  · intro h x hx
    simpa using h x hx

theorem create_gives_tracked (K : String) (vh0 : lws_vhost) (tsi h ttl : Nat)
    (hen : vh0.cache_enabled = true)
    (huniq : (vh0.tls_sessions.filter (fun x => decide (x.name = K))).length ≤ 1) :
    tracked K (__lws_tls_session_create vh0 true tsi h K ttl).2.1 false := by
  rcases split_first_name vh0.tls_sessions K with hnone | ⟨pre, ts, post, hl, hts, hpre⟩
  · rw [create_new vh0 tsi h K ttl hen hnone]
    refine ⟨hen, { session := h, in_use := true, expire_on_unused := false, name := K },
      ?_, rfl, rfl⟩
    simp [List.filter_append, (filter_nil_names K _).2 hnone]
  · rw [create_update vh0 true tsi h K ttl pre post ts hen hl hts hpre]
    have h1 := (filter_nil_names K pre).2 hpre
    have h2 : post.filter (fun x => decide (x.name = K)) = [] := by
      rw [hl] at huniq
      simp [List.filter_append, List.filter_cons, h1, hts] at huniq
      rw [List.filter_eq_nil_iff]
      intro x hx
      simpa using huniq x hx
    refine ⟨hen, { ts with session := h, expire_on_unused := false, in_use := true },
      ?_, rfl, rfl⟩
    simp [List.filter_append, List.filter_cons, h1, h2, hts]

/-! ## Claims -/

/-- C1: on a vhost whose cache option is set, create/update with a successful
allocation returns 0, and a lookup of the same key right after it returns an
entry that holds the new session, is in use and has no expiry pending, whether
or not the key was cached before. -/
theorem create_then_lookup (vh : lws_vhost) (tsi h : Nat) (K : String) (ttl : Nat)
    (hen : vh.cache_enabled = true) :
    (__lws_tls_session_create vh true tsi h K ttl).1 = 0 ∧
    ∃ i e,
      __lws_tls_session_lookup_by_name (__lws_tls_session_create vh true tsi h K ttl).2.1 K
        = some (i, e) ∧
      (__lws_tls_session_create vh true tsi h K ttl).2.1.tls_sessions[i]? = some e ∧
      e.name = K ∧ e.session = h ∧ e.in_use = true ∧ e.expire_on_unused = false := by
  rcases split_first_name vh.tls_sessions K with hnone | ⟨pre, ts, post, hl, hts, hpre⟩
  · rw [create_new vh tsi h K ttl hen hnone]
    refine ⟨rfl, vh.tls_sessions.length,
      { session := h, in_use := true, expire_on_unused := false, name := K }, ?_, ?_,
      rfl, rfl, rfl, rfl⟩
    · rw [lookup_enabled _ _ (by exact hen)]
      apply find_mid
      · intro e he
        simpa using fun hK => hnone e he hK.symm
      · simp
    · exact getElem?_mid _ _ _
  · rw [create_update vh true tsi h K ttl pre post ts hen hl hts hpre]
    refine ⟨rfl, pre.length,
      { ts with session := h, expire_on_unused := false, in_use := true }, ?_, ?_,
      hts, rfl, rfl, rfl⟩
    · rw [lookup_enabled _ _ (by exact hen)]
      apply find_mid
      · intro e he
        simpa using fun hK => hpre e he hK.symm
      · simp [hts]
    · exact getElem?_mid _ _ _

theorem create_then_lookup_witness :
    (lws_vhost.mk true [⟨5, false, true, "203.0.113.5:443"⟩]).cache_enabled = true ∧
    (__lws_tls_session_create ⟨true, [⟨5, false, true, "203.0.113.5:443"⟩]⟩ true 0 7
        "203.0.113.5:443" 300).1 = 0 ∧
    ∃ i e,
      __lws_tls_session_lookup_by_name
        (__lws_tls_session_create ⟨true, [⟨5, false, true, "203.0.113.5:443"⟩]⟩ true 0 7
          "203.0.113.5:443" 300).2.1 "203.0.113.5:443" = some (i, e) ∧
      (__lws_tls_session_create ⟨true, [⟨5, false, true, "203.0.113.5:443"⟩]⟩ true 0 7
          "203.0.113.5:443" 300).2.1.tls_sessions[i]? = some e ∧
      e.name = "203.0.113.5:443" ∧ e.session = 7 ∧ e.in_use = true ∧
      e.expire_on_unused = false :=
  ⟨rfl, create_then_lookup ⟨true, [⟨5, false, true, "203.0.113.5:443"⟩]⟩ 0 7
    "203.0.113.5:443" 300 rfl⟩

/-- C2: the TTL callback on a member that is in use returns with the list as it
was, except that this member has `expire_on_unused` set, and it calls no
collaborator (nothing is freed). On a member that is not in use it unlinks
exactly this member, frees exactly its session, once, and leaves the other
members as they were. -/
theorem ttl_exp_effect (vh : lws_vhost) (pre post : List lws_tls_sco_t) (ts : lws_tls_sco_t)
    (hl : vh.tls_sessions = pre ++ ts :: post) :
    (ts.in_use = true →
      lws_tls_session_ttl_exp vh pre.length =
        Except.ok ({ vh with tls_sessions := pre ++ { ts with expire_on_unused := true } :: post },
          [])) ∧
    (ts.in_use = false →
      lws_tls_session_ttl_exp vh pre.length =
        Except.ok ({ vh with tls_sessions := pre ++ post },
          [Event.lws_vhost_lock] ++ destroy_events ts ++ [Event.lws_vhost_unlock]) ∧
      freed ([Event.lws_vhost_lock] ++ destroy_events ts ++ [Event.lws_vhost_unlock])
        = [ts.session]) := by
  exact ⟨fun hu => ttl_exp_mark vh pre post ts hl hu,
    fun hu => ⟨ttl_exp_destroy vh pre post ts hl hu, rfl⟩⟩

theorem ttl_exp_effect_witness :
    lws_tls_session_ttl_exp ⟨true, [⟨1, false, false, "a"⟩, ⟨2, true, false, "b"⟩]⟩ 1 =
      Except.ok (⟨true, [⟨1, false, false, "a"⟩, ⟨2, true, true, "b"⟩]⟩, []) ∧
    lws_tls_session_ttl_exp ⟨true, [⟨1, false, false, "a"⟩, ⟨2, true, false, "b"⟩]⟩ 0 =
      Except.ok (⟨true, [⟨2, true, false, "b"⟩]⟩,
        [Event.lws_vhost_lock, Event.lws_sul_cancel "a", Event.SSL_SESSION_free 1,
         Event.lws_dll2_remove "a", Event.lws_free "a", Event.lws_vhost_unlock]) :=
  ⟨(ttl_exp_effect ⟨true, [⟨1, false, false, "a"⟩, ⟨2, true, false, "b"⟩]⟩
      [⟨1, false, false, "a"⟩] [] ⟨2, true, false, "b"⟩ rfl).1 rfl,
   ((ttl_exp_effect ⟨true, [⟨1, false, false, "a"⟩, ⟨2, true, false, "b"⟩]⟩
      [] [⟨2, true, false, "b"⟩] ⟨1, false, false, "a"⟩ rfl).2 rfl).1⟩

/-- C3, as stated, fails: the TTL fires on the member while it is in use, an
update for the same key then installs a new session and clears the pending
expiry, and the first release by the connection holding the member's session
leaves the member cached, with nothing freed by the release. -/
theorem release_after_update_counterexample :
    run ⟨true, []⟩ [Op.create true 0 1 "k" 1, Op.fire 0] =
      Except.ok (⟨true, [⟨1, true, true, "k"⟩]⟩,
        [Event.lws_vhost_lock, Event.lws_dll2_add_tail "k", Event.lws_vhost_unlock,
         Event.lws_sul_schedule 0 "k" 1000000]) ∧
    run ⟨true, [⟨1, true, true, "k"⟩]⟩ [Op.create true 0 2 "k" 1] =
      Except.ok (⟨true, [⟨2, true, false, "k"⟩]⟩,
        [Event.SSL_SESSION_free 1, Event.lws_sul_schedule 0 "k" 1000000]) ∧
    lws_tls_session_release ⟨true, 2, "192.0.2.1", 443, 0⟩ ⟨true, [⟨2, true, false, "k"⟩]⟩ =
      Except.ok (⟨true, [⟨2, false, false, "k"⟩]⟩, []) :=
  ⟨rfl, rfl, rfl⟩

/-- C3, amended: take a vhost with the cache option set and at most one member
for key `K`, create or update the entry for `K` (allocation succeeding), and
then run any sequence of create/update, TTL callback, release, teardown and
reuse operations that does not fault and in which no release stops at the
member for `K`. That member is not destroyed by the sequence and is still in
use. The following release by a connection whose scan stops at it returns, and
it destroys the member (a lookup of `K` then finds nothing, the entry is
released once and its session freed once) if and only if the TTL callback ran
on the member after the last create/update for `K`; otherwise nothing is
freed and the member stays. -/
theorem first_release_destroys_iff_fired (vh0 : lws_vhost) (tsi h : Nat) (K : String)
    (ttl : Nat) (ops : List Op) (vh1 : lws_vhost) (ev1 : List Event) (wsi : lws) (i : Nat)
    (ts : lws_tls_sco_t)
    (hen : vh0.cache_enabled = true)
    (huniq : (vh0.tls_sessions.filter (fun x => decide (x.name = K))).length ≤ 1)
    (hrun : run (__lws_tls_session_create vh0 true tsi h K ttl).2.1 ops = Except.ok (vh1, ev1))
    (hno : no_release_of K (__lws_tls_session_create vh0 true tsi h K ttl).2.1 ops = true)
    (hw : wsi.a_vhost = true)
    (hfind : lws_dll2_find (fun x => decide (x.session = wsi.ssl_session)) vh1.tls_sessions
      = some (i, ts))
    (hK : ts.name = K) :
    K ∉ released ev1 ∧ ts.in_use = true ∧
    ∃ vh2 ev2, lws_tls_session_release wsi vh1 = Except.ok (vh2, ev2) ∧
      (__lws_tls_session_lookup_by_name vh2 K = none ↔
        fired_since_update K (__lws_tls_session_create vh0 true tsi h K ttl).2.1 false ops
          = true) ∧
      released ev2 =
        (if fired_since_update K (__lws_tls_session_create vh0 true tsi h K ttl).2.1 false ops
          then [K] else []) ∧
      freed ev2 =
        (if fired_since_update K (__lws_tls_session_create vh0 true tsi h K ttl).2.1 false ops
          then [ts.session] else []) := by
  have h0 := create_gives_tracked K vh0 tsi h ttl hen huniq
  obtain ⟨⟨hen1, e, hfe, heu, hex⟩, hrel⟩ := run_tracked K ops _ vh1 ev1 false h0 hno hrun
  obtain ⟨pre, post, hl, _, hts0, hpre0⟩ := find_some _ _ i ts hfind
  have hts : ts.session = wsi.ssl_session := by simpa using hts0
  have hpre : ∀ x ∈ pre, x.session ≠ wsi.ssl_session := fun x hx => by
    simpa using hpre0 x hx
  rw [hl] at hfe
  obtain ⟨h1, hte, h2⟩ := filter_mid_hit _ pre post ts e hfe (by simp [hK])
  subst hte
  have hn1 := (filter_nil_names K pre).1 h1
  have hn2 := (filter_nil_names K post).1 h2
  refine ⟨hrel, heu, ?_⟩
  cases hf : fired_since_update K (__lws_tls_session_create vh0 true tsi h K ttl).2.1 false ops with
  | true =>
    rw [hf] at hex
    refine ⟨_, _, release_expire wsi vh1 pre post ts hw hen1 hl hts hpre heu hex, ?_, ?_, ?_⟩
    · simp only [iff_true]
      rw [lookup_enabled _ _ (by exact hen1), find_none]
      intro x hx
      have hx1 : x.name ≠ K := by
        rcases List.mem_append.1 hx with hx | hx
        · exact hn1 x hx
        · exact hn2 x hx
      simpa using fun hKx => hx1 hKx.symm
    · simp [released_destroy_events, hK]
    · simp [freed_destroy_events]
  | false =>
    rw [hf] at hex
    refine ⟨_, _, release_keep wsi vh1 pre post ts hw hen1 hl hts hpre heu hex, ?_, ?_, ?_⟩
    · have hfm : lws_dll2_find (fun x => decide (K = x.name))
          (pre ++ { ts with in_use := false } :: post) =
          some (pre.length, { ts with in_use := false }) := by
        apply find_mid
        · intro x hx
          simpa using fun hKx => hn1 x hx hKx.symm
        · simp [hK]
      rw [lookup_enabled _ _ (by exact hen1)]
      simp [hfm]
    · simp [released]
    · simp [freed]

theorem first_release_destroys_iff_fired_witness :
    "k" ∉ released [] ∧ (lws_tls_sco_t.mk 7 true true "k").in_use = true ∧
    ∃ vh2 ev2,
      lws_tls_session_release ⟨true, 7, "192.0.2.1", 443, 0⟩
        ⟨true, [⟨1, false, false, "a"⟩, ⟨7, true, true, "k"⟩]⟩ = Except.ok (vh2, ev2) ∧
      (__lws_tls_session_lookup_by_name vh2 "k" = none ↔
        fired_since_update "k"
          (__lws_tls_session_create ⟨true, [⟨1, true, false, "a"⟩]⟩ true 0 7 "k" 300).2.1 false
          [Op.fire 1, Op.teardown, Op.release ⟨true, 1, "192.0.2.9", 443, 0⟩] = true) ∧
      released ev2 =
        (if fired_since_update "k"
          (__lws_tls_session_create ⟨true, [⟨1, true, false, "a"⟩]⟩ true 0 7 "k" 300).2.1 false
          [Op.fire 1, Op.teardown, Op.release ⟨true, 1, "192.0.2.9", 443, 0⟩]
          then ["k"] else []) ∧
      freed ev2 =
        (if fired_since_update "k"
          (__lws_tls_session_create ⟨true, [⟨1, true, false, "a"⟩]⟩ true 0 7 "k" 300).2.1 false
          [Op.fire 1, Op.teardown, Op.release ⟨true, 1, "192.0.2.9", 443, 0⟩]
          then [(lws_tls_sco_t.mk 7 true true "k").session] else []) :=
  first_release_destroys_iff_fired ⟨true, [⟨1, true, false, "a"⟩]⟩ 0 7 "k" 300
    [Op.fire 1, Op.teardown, Op.release ⟨true, 1, "192.0.2.9", 443, 0⟩]
    ⟨true, [⟨1, false, false, "a"⟩, ⟨7, true, true, "k"⟩]⟩ []
    ⟨true, 7, "192.0.2.1", 443, 0⟩ 1 ⟨7, true, true, "k"⟩
    rfl (by decide) rfl rfl rfl rfl rfl

/-- C4: teardown of a vhost returns, never faults, and leaves exactly the
members that were in use, in their order and unchanged; the members that were
not in use are destroyed, each session among them freed once, in list order;
the number of members left is the number that were in use. -/
theorem vh_destroy_effect (vh : lws_vhost) :
    lws_tls_session_vh_destroy vh =
      Except.ok ({ vh with tls_sessions := vh.tls_sessions.filter (fun ts => ts.in_use) },
        teardown_events vh.tls_sessions) ∧
    freed (teardown_events vh.tls_sessions) =
      (vh.tls_sessions.filter (fun ts => !ts.in_use)).map (fun ts => ts.session) ∧
    (vh.tls_sessions.filter (fun ts => ts.in_use)).length =
      vh.tls_sessions.countP (fun ts => ts.in_use) := by
  refine ⟨vh_destroy_eq vh, freed_teardown_events _, ?_⟩
  rw [List.countP_eq_length_filter]

/-- C5: a release by a connection whose session is held by no member returns
the vhost as it was and calls no collaborator (nothing is freed), whatever the
cache option and the vhost binding of the connection are. -/
theorem release_no_match (wsi : lws) (vh : lws_vhost)
    (hmiss : ∀ e ∈ vh.tls_sessions, e.session ≠ wsi.ssl_session) :
    lws_tls_session_release wsi vh = Except.ok (vh, []) :=
  release_miss wsi vh hmiss

theorem release_no_match_witness :
    lws_tls_session_release ⟨true, 9, "192.0.2.1", 443, 0⟩
        ⟨true, [⟨1, true, true, "a"⟩, ⟨2, false, false, "b"⟩]⟩ =
      Except.ok (⟨true, [⟨1, true, true, "a"⟩, ⟨2, false, false, "b"⟩]⟩, []) :=
  release_no_match ⟨true, 9, "192.0.2.1", 443, 0⟩
    ⟨true, [⟨1, true, true, "a"⟩, ⟨2, false, false, "b"⟩]⟩ (by decide)

/-- C6, as stated, fails: with the cache option unset, release returns at its
guard, so the member that holds the connection's session stays in use with its
expiry pending, it is not destroyed and nothing is freed. -/
theorem release_every_store_counterexample :
    lws_tls_session_release ⟨true, 7, "192.0.2.1", 443, 0⟩ ⟨false, [⟨7, true, true, "k"⟩]⟩ =
      Except.ok (⟨false, [⟨7, true, true, "k"⟩]⟩, []) :=
  rfl

/-- C6, amended: on a vhost whose cache option is set, for a connection bound
to it, let `ts` be the first member whose session is the connection's. If `ts`
is in use with its expiry pending, release destroys it: it is unlinked, its
session is freed once, the other members are unchanged, and when no other
member has its key a lookup of the key finds nothing. If `ts` is in use with no
expiry pending, release only clears `in_use` and calls no collaborator. If `ts`
is not in use, release ends in an assertion failure. -/
theorem release_match_effect (wsi : lws) (vh : lws_vhost) (pre post : List lws_tls_sco_t)
    (ts : lws_tls_sco_t) (hw : wsi.a_vhost = true) (hen : vh.cache_enabled = true)
    (hl : vh.tls_sessions = pre ++ ts :: post) (hts : ts.session = wsi.ssl_session)
    (hpre : ∀ e ∈ pre, e.session ≠ wsi.ssl_session) :
    (ts.in_use = true → ts.expire_on_unused = true →
      lws_tls_session_release wsi vh =
        Except.ok ({ vh with tls_sessions := pre ++ post }, destroy_events ts) ∧
      freed (destroy_events ts) = [ts.session] ∧
      ((∀ e ∈ pre ++ post, e.name ≠ ts.name) →
        __lws_tls_session_lookup_by_name { vh with tls_sessions := pre ++ post } ts.name
          = none)) ∧
    (ts.in_use = true → ts.expire_on_unused = false →
      lws_tls_session_release wsi vh =
        Except.ok ({ vh with tls_sessions := pre ++ { ts with in_use := false } :: post }, [])) ∧
    (ts.in_use = false →
      lws_tls_session_release wsi vh = Except.error Fault.assertion) := by
  refine ⟨?_, ?_, ?_⟩
  · intro hu hx
    refine ⟨release_expire wsi vh pre post ts hw hen hl hts hpre hu hx, rfl, ?_⟩
    intro huniq
    rw [lookup_enabled _ _ (by exact hen), find_none]
    intro e he
    simpa using fun hK => huniq e he hK.symm
  · intro hu hx
    exact release_keep wsi vh pre post ts hw hen hl hts hpre hu hx
  · intro hu
    exact release_assert wsi vh pre post ts hw hen hl hts hpre hu

theorem release_match_effect_witness :
    (lws_tls_session_release ⟨true, 7, "192.0.2.1", 443, 0⟩
        ⟨true, [⟨1, true, false, "a"⟩, ⟨7, true, true, "k"⟩, ⟨3, false, false, "c"⟩]⟩ =
      Except.ok (⟨true, [⟨1, true, false, "a"⟩, ⟨3, false, false, "c"⟩]⟩,
        destroy_events ⟨7, true, true, "k"⟩) ∧
     freed (destroy_events ⟨7, true, true, "k"⟩) = [7] ∧
     __lws_tls_session_lookup_by_name
        ⟨true, [⟨1, true, false, "a"⟩, ⟨3, false, false, "c"⟩]⟩ "k" = none) ∧
    lws_tls_session_release ⟨true, 7, "192.0.2.1", 443, 0⟩
        ⟨true, [⟨1, true, false, "a"⟩, ⟨7, true, false, "k"⟩, ⟨3, false, false, "c"⟩]⟩ =
      Except.ok (⟨true, [⟨1, true, false, "a"⟩, ⟨7, false, false, "k"⟩,
        ⟨3, false, false, "c"⟩]⟩, []) ∧
    lws_tls_session_release ⟨true, 7, "192.0.2.1", 443, 0⟩
        ⟨true, [⟨1, true, false, "a"⟩, ⟨7, false, false, "k"⟩, ⟨3, false, false, "c"⟩]⟩ =
      Except.error Fault.assertion :=
  ⟨(fun r => ⟨r.1, r.2.1, r.2.2 (by decide)⟩)
    ((release_match_effect ⟨true, 7, "192.0.2.1", 443, 0⟩
      ⟨true, [⟨1, true, false, "a"⟩, ⟨7, true, true, "k"⟩, ⟨3, false, false, "c"⟩]⟩
      [⟨1, true, false, "a"⟩] [⟨3, false, false, "c"⟩] ⟨7, true, true, "k"⟩
      rfl rfl rfl rfl (by decide)).1 rfl rfl),
   (release_match_effect ⟨true, 7, "192.0.2.1", 443, 0⟩
      ⟨true, [⟨1, true, false, "a"⟩, ⟨7, true, false, "k"⟩, ⟨3, false, false, "c"⟩]⟩
      [⟨1, true, false, "a"⟩] [⟨3, false, false, "c"⟩] ⟨7, true, false, "k"⟩
      rfl rfl rfl rfl (by decide)).2.1 rfl rfl,
   (release_match_effect ⟨true, 7, "192.0.2.1", 443, 0⟩
      ⟨true, [⟨1, true, false, "a"⟩, ⟨7, false, false, "k"⟩, ⟨3, false, false, "c"⟩]⟩
      [⟨1, true, false, "a"⟩] [⟨3, false, false, "c"⟩] ⟨7, false, false, "k"⟩
      rfl rfl rfl rfl (by decide)).2.2 rfl⟩

/-- C7: on a vhost whose cache option is set and which holds one member for key
`K`, create/update for `K` with a new session returns 0, frees the old session
once and nothing else, keeps the number of members, leaves exactly one member
for `K`, which now holds the new session and is in use with no expiry pending,
and leaves every other member unchanged. The member need not be in use and the
allocator is not consulted. -/
theorem create_update_effect (vh : lws_vhost) (m : Bool) (tsi h2 : Nat) (K : String)
    (ttl : Nat) (pre post : List lws_tls_sco_t) (ts : lws_tls_sco_t)
    (hen : vh.cache_enabled = true) (hl : vh.tls_sessions = pre ++ ts :: post)
    (hts : ts.name = K) (huniq : ∀ e ∈ pre ++ post, e.name ≠ K) :
    (__lws_tls_session_create vh m tsi h2 K ttl).1 = 0 ∧
    (__lws_tls_session_create vh m tsi h2 K ttl).2.1 =
      { vh with tls_sessions := pre ++
          { ts with session := h2, expire_on_unused := false, in_use := true } :: post } ∧
    freed (__lws_tls_session_create vh m tsi h2 K ttl).2.2 = [ts.session] ∧
    (__lws_tls_session_create vh m tsi h2 K ttl).2.1.tls_sessions.length
      = vh.tls_sessions.length ∧
    (__lws_tls_session_create vh m tsi h2 K ttl).2.1.tls_sessions.filter
        (fun e => decide (e.name = K)) =
      [{ ts with session := h2, expire_on_unused := false, in_use := true }] := by
  have hpre : ∀ e ∈ pre, e.name ≠ K := fun e he => huniq e (by simp [he])
  have hpost : ∀ e ∈ post, e.name ≠ K := fun e he => huniq e (by simp [he])
  rw [create_update vh m tsi h2 K ttl pre post ts hen hl hts hpre]
  refine ⟨rfl, rfl, rfl, by simp [hl], ?_⟩
  have h1 : pre.filter (fun e => decide (e.name = K)) = [] := by
    rw [List.filter_eq_nil_iff]
    intro e he
    simpa using hpre e he
  have h2 : post.filter (fun e => decide (e.name = K)) = [] := by
    rw [List.filter_eq_nil_iff]
    intro e he
    simpa using hpost e he
  simp [List.filter_cons, h1, h2, hts]

theorem create_update_effect_witness :
    (__lws_tls_session_create ⟨true, [⟨1, true, false, "a"⟩, ⟨5, true, true, "k"⟩]⟩
        false 0 7 "k" 300).1 = 0 ∧
    (__lws_tls_session_create ⟨true, [⟨1, true, false, "a"⟩, ⟨5, true, true, "k"⟩]⟩
        false 0 7 "k" 300).2.1 = ⟨true, [⟨1, true, false, "a"⟩, ⟨7, true, false, "k"⟩]⟩ ∧
    freed (__lws_tls_session_create ⟨true, [⟨1, true, false, "a"⟩, ⟨5, true, true, "k"⟩]⟩
        false 0 7 "k" 300).2.2 = [5] ∧
    (__lws_tls_session_create ⟨true, [⟨1, true, false, "a"⟩, ⟨5, true, true, "k"⟩]⟩
        false 0 7 "k" 300).2.1.tls_sessions.length = 2 ∧
    (__lws_tls_session_create ⟨true, [⟨1, true, false, "a"⟩, ⟨5, true, true, "k"⟩]⟩
        false 0 7 "k" 300).2.1.tls_sessions.filter (fun e => decide (e.name = "k")) =
      [⟨7, true, false, "k"⟩] :=
  create_update_effect ⟨true, [⟨1, true, false, "a"⟩, ⟨5, true, true, "k"⟩]⟩ false 0 7 "k" 300
    [⟨1, true, false, "a"⟩] [] ⟨5, true, true, "k"⟩ rfl rfl rfl (by decide)

/-- C8: with the cache option unset, whatever the list holds, reuse finds no
entry and attaches nothing, and create/update returns 0 without touching the
list or calling any collaborator. The new-session callback then returns 1, not
0: it tells the TLS library that the cache keeps the session, which the cache
did not store. -/
theorem cache_disabled_effect (wsi : lws) (vh : lws_vhost) (m : Bool) (tsi h : Nat)
    (K : String) (ttl : Nat) (hdis : vh.cache_enabled = false) (hw : wsi.a_vhost = true) :
    lws_tls_reuse_session wsi vh = Except.ok (vh, []) ∧
    __lws_tls_session_create vh m tsi h K ttl = (0, vh, []) ∧
    lws_tls_session_new_cb (some wsi) vh m h = Except.ok (1, vh, []) := by
  refine ⟨?_, ?_, ?_⟩
  · simp [lws_tls_reuse_session, __lws_tls_session_lookup_by_name, hdis, hw]
  · simp [__lws_tls_session_create, hdis]
  · simp [lws_tls_session_new_cb, __lws_tls_session_create, hdis, hw]

theorem cache_disabled_effect_witness :
    lws_tls_reuse_session ⟨true, 0, "203.0.113.5", 443, 0⟩
        ⟨false, [⟨5, false, false, "203.0.113.5:443"⟩]⟩ =
      Except.ok (⟨false, [⟨5, false, false, "203.0.113.5:443"⟩]⟩, []) ∧
    __lws_tls_session_create ⟨false, [⟨5, false, false, "203.0.113.5:443"⟩]⟩ true 0 7
        "203.0.113.5:443" 300 =
      (0, ⟨false, [⟨5, false, false, "203.0.113.5:443"⟩]⟩, []) ∧
    lws_tls_session_new_cb (some ⟨true, 0, "203.0.113.5", 443, 0⟩)
        ⟨false, [⟨5, false, false, "203.0.113.5:443"⟩]⟩ true 7 =
      Except.ok (1, ⟨false, [⟨5, false, false, "203.0.113.5:443"⟩]⟩, []) :=
  cache_disabled_effect ⟨true, 0, "203.0.113.5", 443, 0⟩
    ⟨false, [⟨5, false, false, "203.0.113.5:443"⟩]⟩ true 0 7 "203.0.113.5:443" 300 rfl rfl

/-- C9: on a vhost whose cache option is set and which has no member for key
`K`, create/update with a failing allocation returns 1, leaves the vhost as it
was and calls no collaborator (the session is not freed, no timer is armed);
the new-session callback of a connection whose key is `K` then returns 0. -/
theorem alloc_failure_effect (vh : lws_vhost) (tsi h : Nat) (K : String) (ttl : Nat)
    (hen : vh.cache_enabled = true) (hnone : ∀ e ∈ vh.tls_sessions, e.name ≠ K) :
    __lws_tls_session_create vh false tsi h K ttl = (1, vh, []) ∧
    freed (__lws_tls_session_create vh false tsi h K ttl).2.2 = [] ∧
    armed (__lws_tls_session_create vh false tsi h K ttl).2.2 = [] ∧
    ∀ wsi : lws, wsi.a_vhost = true →
      lws_tls_session_name_from_wsi wsi (INET6_ADDRSTRLEN + 1 + 8 + 1) = K →
      lws_tls_session_new_cb (some wsi) vh false h = Except.ok (0, vh, []) := by
  have hc := fun t => create_fail vh t h K ttl hen hnone
  refine ⟨hc tsi, by rw [hc tsi]; rfl, by rw [hc tsi]; rfl, ?_⟩
  intro wsi hw hK
  have hc1 := create_fail vh wsi.tsi h K 300 hen hnone
  simp only [lws_tls_session_new_cb, hK, hc1]
  simp [hw]

theorem alloc_failure_effect_witness :
    __lws_tls_session_create ⟨true, [⟨1, true, false, "a"⟩]⟩ false 0 7 "203.0.113.5:443" 300 =
      (1, ⟨true, [⟨1, true, false, "a"⟩]⟩, []) ∧
    lws_tls_session_new_cb (some ⟨true, 0, "203.0.113.5", 443, 0⟩)
        ⟨true, [⟨1, true, false, "a"⟩]⟩ false 7 =
      Except.ok (0, ⟨true, [⟨1, true, false, "a"⟩]⟩, []) :=
  ⟨(alloc_failure_effect ⟨true, [⟨1, true, false, "a"⟩]⟩ 0 7 "203.0.113.5:443" 300 rfl
      (by decide)).1,
   (alloc_failure_effect ⟨true, [⟨1, true, false, "a"⟩]⟩ 0 7 "203.0.113.5:443" 300 rfl
      (by decide)).2.2.2 ⟨true, 0, "203.0.113.5", 443, 0⟩ rfl (by decide)⟩

/-- C10: from an empty list on a vhost whose cache option is set, create leaves
one member in use, teardown keeps it and calls no collaborator, and the
release by the connection that holds the session then only clears `in_use`:
the member is still in the list and its session is not freed. -/
theorem teardown_then_release_keeps_entry (tsi h : Nat) (K : String) (ttl : Nat)
    (peer : String) (port wtsi : Nat) :
    __lws_tls_session_create ⟨true, []⟩ true tsi h K ttl =
      (0, ⟨true, [⟨h, true, false, K⟩]⟩,
        [Event.lws_vhost_lock, Event.lws_dll2_add_tail K, Event.lws_vhost_unlock,
         Event.lws_sul_schedule tsi K (ttl * LWS_US_PER_SEC)]) ∧
    lws_tls_session_vh_destroy ⟨true, [⟨h, true, false, K⟩]⟩ =
      Except.ok (⟨true, [⟨h, true, false, K⟩]⟩, []) ∧
    lws_tls_session_release ⟨true, h, peer, port, wtsi⟩ ⟨true, [⟨h, true, false, K⟩]⟩ =
      Except.ok (⟨true, [⟨h, false, false, K⟩]⟩, []) := by
  refine ⟨?_, ?_, ?_⟩
  · exact create_new ⟨true, []⟩ tsi h K ttl rfl (by simp)
  · have h1 := vh_destroy_eq ⟨true, [⟨h, true, false, K⟩]⟩
    simpa [teardown_events] using h1
  · exact release_keep ⟨true, h, peer, port, wtsi⟩ ⟨true, [⟨h, true, false, K⟩]⟩ [] []
      ⟨h, true, false, K⟩ rfl rfl rfl rfl (by simp) rfl rfl

/-! ## One operation, case by case -/

theorem run_cons_ok (vh vh2 : lws_vhost) (op : Op) (rest : List Op) (ev : List Event)
    (hrun : run vh (op :: rest) = Except.ok (vh2, ev)) :
    ∃ vh1 ev1 ev2, step vh op = Except.ok (vh1, ev1) ∧
      run vh1 rest = Except.ok (vh2, ev2) ∧ ev = ev1 ++ ev2 := by
  cases hs : step vh op with
  | error f => simp [run, hs] at hrun
  | ok r =>
    obtain ⟨vhm, evm⟩ := r
    cases hr : run vhm rest with
    | error f => simp [run, hs, hr] at hrun
    | ok r2 =>
      obtain ⟨vhe, eve⟩ := r2
      simp only [run, hs, hr, Except.ok.injEq, Prod.mk.injEq] at hrun
      obtain ⟨rfl, rfl⟩ := hrun
      exact ⟨vhm, evm, eve, rfl, hr, rfl⟩

theorem create_disabled (vh : lws_vhost) (m : Bool) (tsi h : Nat) (K : String) (ttl : Nat)
    (hdis : vh.cache_enabled = false) :
    __lws_tls_session_create vh m tsi h K ttl = (0, vh, []) := by
  simp [__lws_tls_session_create, hdis]

theorem release_guard (wsi : lws) (vh : lws_vhost)
    (hg : wsi.a_vhost = false ∨ vh.cache_enabled = false) :
    lws_tls_session_release wsi vh = Except.ok (vh, []) := by
  rcases hg with hg | hg <;> simp [lws_tls_session_release, hg]

theorem reuse_cases (wsi : lws) (vh vh1 : lws_vhost) (ev : List Event)
    (hstep : lws_tls_reuse_session wsi vh = Except.ok (vh1, ev)) :
    vh1 = vh ∧ (ev = [] ∨ ∃ s, ev = [Event.SSL_set_session s]) := by
  unfold lws_tls_reuse_session at hstep
  split at hstep
  · simp at hstep
  · simp only at hstep
    split at hstep
    · simp only [Except.ok.injEq, Prod.mk.injEq] at hstep
      obtain ⟨rfl, rfl⟩ := hstep
      exact ⟨rfl, Or.inl rfl⟩
    · split at hstep
      · simp at hstep
      · simp only [Except.ok.injEq, Prod.mk.injEq] at hstep
        obtain ⟨rfl, rfl⟩ := hstep
        exact ⟨rfl, Or.inr ⟨_, rfl⟩⟩

theorem step_effect (vh vh1 : lws_vhost) (op : Op) (ev : List Event)
    (hstep : step vh op = Except.ok (vh1, ev)) : Effect vh op vh1 ev := by
  cases op with
  | create m tsi h K ttl =>
    simp only [step, Except.ok.injEq, Prod.mk.injEq] at hstep
    obtain ⟨rfl, rfl⟩ := hstep
    by_cases hen : vh.cache_enabled = true
    · rcases split_first_name vh.tls_sessions K with hnone | ⟨pre, ts, post, hl, hts, hpre⟩
      · cases m with
        | false =>
          rw [create_fail vh tsi h K ttl hen hnone]
          exact Effect.idle _
        | true =>
          rw [create_new vh tsi h K ttl hen hnone]
          exact Effect.add tsi h K ttl hnone
      · rw [create_update vh m tsi h K ttl pre post ts hen hl hts hpre]
        exact Effect.update m tsi h K ttl pre ts post hl hts
    · have hdis : vh.cache_enabled = false := by simpa using hen
      rw [create_disabled vh m tsi h K ttl hdis]
      exact Effect.idle _
  | fire i =>
    simp only [step] at hstep
    cases hg : vh.tls_sessions[i]? with
    | none => simp [lws_tls_session_ttl_exp, hg] at hstep
    | some y =>
      obtain ⟨p1, p2, hl, hi⟩ := getElem?_split _ _ _ hg
      subst hi
      by_cases hu : y.in_use = true
      · rw [ttl_exp_mark vh p1 p2 y hl hu] at hstep
        simp only [Except.ok.injEq, Prod.mk.injEq] at hstep
        obtain ⟨rfl, rfl⟩ := hstep
        exact Effect.mark _ p1 y p2 hl hu
      · have hu1 : y.in_use = false := by simpa using hu
        rw [ttl_exp_destroy vh p1 p2 y hl hu1] at hstep
        simp only [Except.ok.injEq, Prod.mk.injEq] at hstep
        obtain ⟨rfl, rfl⟩ := hstep
        exact Effect.expire _ p1 y p2 hl hu1
  | release wsi =>
    simp only [step] at hstep
    by_cases hw : wsi.a_vhost = true
    · by_cases hen : vh.cache_enabled = true
      · cases hf : lws_dll2_find (fun ts => decide (ts.session = wsi.ssl_session))
            vh.tls_sessions with
        | none =>
          rw [find_none] at hf
          rw [release_miss wsi vh (fun x hx => by simpa using hf x hx)] at hstep
          simp only [Except.ok.injEq, Prod.mk.injEq] at hstep
          obtain ⟨rfl, rfl⟩ := hstep
          exact Effect.idle _
        | some r =>
          obtain ⟨pre, post, hl, _, hts0, hpre0⟩ := find_some _ _ r.1 r.2 hf
          have hts : r.2.session = wsi.ssl_session := by simpa using hts0
          have hpre : ∀ x ∈ pre, x.session ≠ wsi.ssl_session := fun x hx => by
            simpa using hpre0 x hx
          by_cases hu : r.2.in_use = true
          · by_cases hx : r.2.expire_on_unused = true
            · rw [release_expire wsi vh pre post r.2 hw hen hl hts hpre hu hx] at hstep
              simp only [Except.ok.injEq, Prod.mk.injEq] at hstep
              obtain ⟨rfl, rfl⟩ := hstep
              exact Effect.drop _ pre r.2 post hl hu hx
            · have hx1 : r.2.expire_on_unused = false := by simpa using hx
              rw [release_keep wsi vh pre post r.2 hw hen hl hts hpre hu hx1] at hstep
              simp only [Except.ok.injEq, Prod.mk.injEq] at hstep
              obtain ⟨rfl, rfl⟩ := hstep
              exact Effect.unuse _ pre r.2 post hl hu hx1
          · have hu1 : r.2.in_use = false := by simpa using hu
            rw [release_assert wsi vh pre post r.2 hw hen hl hts hpre hu1] at hstep
            simp at hstep
      · rw [release_guard wsi vh (Or.inr (by simpa using hen))] at hstep
        simp only [Except.ok.injEq, Prod.mk.injEq] at hstep
        obtain ⟨rfl, rfl⟩ := hstep
        exact Effect.idle _
    · rw [release_guard wsi vh (Or.inl (by simpa using hw))] at hstep
      simp only [Except.ok.injEq, Prod.mk.injEq] at hstep
      obtain ⟨rfl, rfl⟩ := hstep
      exact Effect.idle _
  | teardown =>
    simp only [step] at hstep
    rw [vh_destroy_eq] at hstep
    simp only [Except.ok.injEq, Prod.mk.injEq] at hstep
    obtain ⟨rfl, rfl⟩ := hstep
    exact Effect.sweep _
  | reuse wsi =>
    simp only [step] at hstep
    obtain ⟨rfl, hev | ⟨s, hev⟩⟩ := reuse_cases wsi vh vh1 ev hstep
    · rw [hev]
      exact Effect.idle _
    · rw [hev]
      exact Effect.attach _ s

/-! ## Invariants of the reachable states -/

theorem run_invariant (I : lws_vhost → Prop)
    (hI : ∀ (vh : lws_vhost) (op : Op) (vh1 : lws_vhost) (ev : List Event),
      I vh → Effect vh op vh1 ev → I vh1) (ops : List Op) :
    ∀ (vh vh1 : lws_vhost) (ev : List Event), I vh →
      run vh ops = Except.ok (vh1, ev) → I vh1 := by
  induction ops with
  | nil =>
    intro vh vh1 ev h0 hrun
    simp only [run, Except.ok.injEq, Prod.mk.injEq] at hrun
    obtain ⟨rfl, rfl⟩ := hrun
    exact h0
  | cons op rest ih =>
    intro vh vh1 ev h0 hrun
    obtain ⟨vhm, ev1, ev2, hs, hr, _⟩ := run_cons_ok vh vh1 op rest ev hrun
    exact ih vhm vh1 ev2 (hI vh op vhm ev1 h0 (step_effect vh vhm op ev1 hs)) hr

theorem mid_sublist {α : Type} (pre post : List α) (x : α) :
    List.Sublist (pre ++ post) (pre ++ x :: post) :=
  List.Sublist.append (List.Sublist.refl pre) (List.sublist_cons_self x post)

theorem effect_keys_nodup (vh : lws_vhost) (op : Op) (vh1 : lws_vhost) (ev : List Event)
    (h0 : (vh.tls_sessions.map (fun e => e.name)).Nodup) (he : Effect vh op vh1 ev) :
    (vh1.tls_sessions.map (fun e => e.name)).Nodup := by
  cases he with
  | idle => exact h0
  | attach => exact h0
  | add tsi h K ttl hnone =>
    simp only [List.map_append, List.map_cons, List.map_nil]
    rw [List.nodup_append]
    refine ⟨h0, by simp, ?_⟩
    intro a ha hb
    simp only [List.mem_singleton] at hb
    subst hb
    rw [List.mem_map] at ha
    obtain ⟨e, he1, he2⟩ := ha
    exact hnone e he1 he2
  | update m tsi h K ttl pre ts post hl hts =>
    rw [hl] at h0
    simpa using h0
  | mark _ pre ts post hl hu =>
    rw [hl] at h0
    simpa using h0
  | expire _ pre ts post hl hu =>
    rw [hl] at h0
    exact h0.sublist ((mid_sublist pre post ts).map _)
  | unuse _ pre ts post hl hu hx =>
    rw [hl] at h0
    simpa using h0
  | drop _ pre ts post hl hu hx =>
    rw [hl] at h0
    exact h0.sublist ((mid_sublist pre post ts).map _)
  | sweep =>
    exact h0.sublist ((List.filter_sublist _).map _)

theorem effect_expire_in_use (vh : lws_vhost) (op : Op) (vh1 : lws_vhost) (ev : List Event)
    (h0 : ∀ e ∈ vh.tls_sessions, e.expire_on_unused = true → e.in_use = true)
    (he : Effect vh op vh1 ev) :
    ∀ e ∈ vh1.tls_sessions, e.expire_on_unused = true → e.in_use = true := by
  cases he with
  | idle => exact h0
  | attach => exact h0
  | add tsi h K ttl hnone =>
    intro e he hx
    simp only [List.mem_append, List.mem_singleton] at he
    rcases he with he | he
    · exact h0 e he hx
    · rw [he]
  | update m tsi h K ttl pre ts post hl hts =>
    rw [hl] at h0
    intro e he hx
    simp only [List.mem_append, List.mem_cons] at he
    rcases he with he | he | he
    · exact h0 e (by simp [he]) hx
    · rw [he]
    · exact h0 e (by simp [he]) hx
  | mark _ pre ts post hl hu =>
    rw [hl] at h0
    intro e he hx
    simp only [List.mem_append, List.mem_cons] at he
    rcases he with he | he | he
    · exact h0 e (by simp [he]) hx
    · rw [he]
      exact hu
    · exact h0 e (by simp [he]) hx
  | expire _ pre ts post hl hu =>
    rw [hl] at h0
    intro e he hx
    exact h0 e ((mid_sublist pre post ts).subset he) hx
  | unuse _ pre ts post hl hu hxf =>
    rw [hl] at h0
    intro e he hx
    simp only [List.mem_append, List.mem_cons] at he
    rcases he with he | he | he
    · exact h0 e (by simp [he]) hx
    · rw [he] at hx
      simp [hxf] at hx
    · exact h0 e (by simp [he]) hx
  | drop _ pre ts post hl hu hxt =>
    rw [hl] at h0
    intro e he hx
    exact h0 e ((mid_sublist pre post ts).subset he) hx
  | sweep =>
    intro e he hx
    exact h0 e (List.mem_of_mem_filter he) hx

/-! ## Armed timers -/

theorem pending_timers_append (P : List String) (a b : List Event) :
    pending_timers P (a ++ b) = pending_timers (pending_timers P a) b := by
  simp [pending_timers, List.foldl_append]

theorem pending_destroy_events (P : List String) (ts : lws_tls_sco_t) :
    pending_timers P (destroy_events ts) = P.filter (fun n => decide (n ≠ ts.name)) := by
  simp [pending_timers, destroy_events, timer_step]

theorem pending_teardown_events (l : List lws_tls_sco_t) :
    ∀ (P : List String) (n : String), n ∈ pending_timers P (teardown_events l) →
      n ∈ P ∧ ∀ e ∈ l, e.in_use = false → e.name ≠ n := by
  induction l with
  | nil =>
    intro P n hn
    exact ⟨by simpa [teardown_events, pending_timers] using hn, by simp⟩
  | cons ts l ih =>
    intro P n hn
    by_cases hu : ts.in_use = true
    · simp only [teardown_events, hu, if_true] at hn
      obtain ⟨h1, h2⟩ := ih P n hn
      refine ⟨h1, ?_⟩
      intro e he hef
      simp only [List.mem_cons] at he
      rcases he with he | he
      · rw [he, hu] at hef
        simp at hef
      · exact h2 e he hef
    · have hu1 : ts.in_use = false := by simpa using hu
      simp only [teardown_events, hu1, Bool.false_eq_true, if_false] at hn
      rw [pending_timers_append, pending_destroy_events] at hn
      obtain ⟨h1, h2⟩ := ih _ n hn
      rw [List.mem_filter] at h1
      refine ⟨h1.1, ?_⟩
      intro e he hef
      simp only [List.mem_cons] at he
      rcases he with he | he
      · rw [he]
        intro hname
        have h3 := h1.2
        simp [hname] at h3
      · exact h2 e he hef

theorem name_mem_mid (pre post : List lws_tls_sco_t) (ts ts1 : lws_tls_sco_t)
    (hname : ts1.name = ts.name) (n : String)
    (h : ∃ e ∈ pre ++ ts :: post, e.name = n) : ∃ e ∈ pre ++ ts1 :: post, e.name = n := by
  obtain ⟨e, he1, he2⟩ := h
  simp only [List.mem_append, List.mem_cons] at he1
  rcases he1 with he1 | he1 | he1
  · exact ⟨e, by simp [he1], he2⟩
  · exact ⟨ts1, by simp, by rw [hname, ← he1, he2]⟩
  · exact ⟨e, by simp [he1], he2⟩

theorem name_mem_erase (pre post : List lws_tls_sco_t) (ts : lws_tls_sco_t) (n : String)
    (hne : n ≠ ts.name) (h : ∃ e ∈ pre ++ ts :: post, e.name = n) :
    ∃ e ∈ pre ++ post, e.name = n := by
  obtain ⟨e, he1, he2⟩ := h
  simp only [List.mem_append, List.mem_cons] at he1
  rcases he1 with he1 | he1 | he1
  · exact ⟨e, by simp [he1], he2⟩
  · exact absurd (by rw [← he2, he1]) hne
  · exact ⟨e, by simp [he1], he2⟩

theorem effect_timers (vh : lws_vhost) (op : Op) (vh1 : lws_vhost) (ev : List Event)
    (P : List String) (h0 : ∀ n ∈ P, ∃ e ∈ vh.tls_sessions, e.name = n)
    (he : Effect vh op vh1 ev) :
    ∀ n ∈ pending_timers P ev, ∃ e ∈ vh1.tls_sessions, e.name = n := by
  cases he with
  | idle => exact h0
  | attach s => exact h0
  | add tsi h K ttl hnone =>
    intro n hn
    simp only [pending_timers, List.foldl_cons, List.foldl_nil, timer_step, List.mem_cons,
      List.mem_filter] at hn
    rcases hn with hn | hn
    · exact ⟨{ session := h, in_use := true, expire_on_unused := false, name := K },
        by simp, hn.symm⟩
    · obtain ⟨e, he1, he2⟩ := h0 n hn.1
      exact ⟨e, by simp [he1], he2⟩
  | update m tsi h K ttl pre ts post hl hts =>
    intro n hn
    simp only [pending_timers, List.foldl_cons, List.foldl_nil, timer_step, List.mem_cons,
      List.mem_filter] at hn
    rcases hn with hn | hn
    · exact ⟨{ ts with session := h, expire_on_unused := false, in_use := true },
        by simp, by rw [hn]; exact hts⟩
    · have h1 := h0 n hn.1
      rw [hl] at h1
      exact name_mem_mid pre post ts
        { ts with session := h, expire_on_unused := false, in_use := true } rfl n h1
  | mark _ pre ts post hl hu =>
    intro n hn
    have h1 := h0 n hn
    rw [hl] at h1
    exact name_mem_mid pre post ts { ts with expire_on_unused := true } rfl n h1
  | expire _ pre ts post hl hu =>
    intro n hn
    rw [pending_timers_append, pending_timers_append, pending_destroy_events] at hn
    simp only [pending_timers, List.foldl_cons, List.foldl_nil, timer_step,
      List.mem_filter] at hn
    have h1 := h0 n hn.1
    rw [hl] at h1
    exact name_mem_erase pre post ts n (by simpa using hn.2) h1
  | unuse _ pre ts post hl hu hx =>
    intro n hn
    have h1 := h0 n hn
    rw [hl] at h1
    exact name_mem_mid pre post ts { ts with in_use := false } rfl n h1
  | drop _ pre ts post hl hu hx =>
    intro n hn
    rw [pending_destroy_events, List.mem_filter] at hn
    have h1 := h0 n hn.1
    rw [hl] at h1
    exact name_mem_erase pre post ts n (by simpa using hn.2) h1
  | sweep =>
    intro n hn
    obtain ⟨h1, h2⟩ := pending_teardown_events _ P n hn
    obtain ⟨e, he1, he2⟩ := h0 n h1
    refine ⟨e, ?_, he2⟩
    rw [List.mem_filter]
    refine ⟨he1, ?_⟩
    by_contra hc
    exact h2 e he1 (by simpa using hc) he2

theorem run_timers (ops : List Op) :
    ∀ (vh vh1 : lws_vhost) (ev : List Event) (P : List String),
      (∀ n ∈ P, ∃ e ∈ vh.tls_sessions, e.name = n) →
      run vh ops = Except.ok (vh1, ev) →
      ∀ n ∈ pending_timers P ev, ∃ e ∈ vh1.tls_sessions, e.name = n := by
  induction ops with
  | nil =>
    intro vh vh1 ev P h0 hrun
    simp only [run, Except.ok.injEq, Prod.mk.injEq] at hrun
    obtain ⟨rfl, rfl⟩ := hrun
    simpa [pending_timers] using h0
  | cons op rest ih =>
    intro vh vh1 ev P h0 hrun
    obtain ⟨vhm, ev1, ev2, hs, hr, rfl⟩ := run_cons_ok vh vh1 op rest ev hrun
    rw [pending_timers_append]
    exact ih vhm vh1 ev2 _ (effect_timers vh op vhm ev1 P h0 (step_effect vh vhm op ev1 hs)) hr

/-! ## Session handles: stored and freed -/

theorem perm_of_count (a b : List Nat) (h : ∀ x, a.count x = b.count x) : List.Perm a b :=
  List.perm_iff_count.2 h

theorem sessions_filter_perm (l : List lws_tls_sco_t) :
    List.Perm
      ((l.filter (fun ts => ts.in_use)).map (fun ts => ts.session) ++
        (l.filter (fun ts => !ts.in_use)).map (fun ts => ts.session))
      (l.map (fun ts => ts.session)) := by
  rw [← List.map_append]
  exact (List.filter_append_perm _ l).map _

theorem effect_handles (vh : lws_vhost) (op : Op) (vh1 : lws_vhost) (ev : List Event)
    (F : List Nat) (he : Effect vh op vh1 ev) :
    List.Perm (vh1.tls_sessions.map (fun ts => ts.session) ++ (F ++ freed ev))
      (vh.tls_sessions.map (fun ts => ts.session) ++ F) ∨
    ∃ m tsi h K ttl, op = Op.create m tsi h K ttl ∧
      List.Perm (vh1.tls_sessions.map (fun ts => ts.session) ++ (F ++ freed ev))
        (h :: (vh.tls_sessions.map (fun ts => ts.session) ++ F)) := by
  cases he with
  | idle =>
    left
    simp [freed]
  | attach s =>
    left
    simp [freed]
  | add tsi h K ttl hnone =>
    right
    refine ⟨true, tsi, h, K, ttl, rfl, ?_⟩
    apply perm_of_count
    intro x
    simp [freed, List.count_append, List.count_cons]
    omega
  | update m tsi h K ttl pre ts post hl hts =>
    right
    refine ⟨m, tsi, h, K, ttl, rfl, ?_⟩
    apply perm_of_count
    intro x
    simp [freed, hl, List.count_append, List.count_cons]
    omega
  | mark _ pre ts post hl hu =>
    left
    simp [freed, hl]
  | expire _ pre ts post hl hu =>
    left
    apply perm_of_count
    intro x
    simp [freed_append, freed_destroy_events, freed, hl, List.count_append, List.count_cons]
    omega
  | unuse _ pre ts post hl hu hx =>
    left
    simp [freed, hl]
  | drop _ pre ts post hl hu hx =>
    left
    apply perm_of_count
    intro x
    simp [freed_destroy_events, hl, List.count_append, List.count_cons]
    omega
  | sweep =>
    left
    rw [freed_teardown_events]
    have h1 := sessions_filter_perm vh.tls_sessions
    apply perm_of_count
    intro x
    have h2 := h1.count_eq x
    simp only [List.count_append] at h2 ⊢
    omega

theorem run_handles (ops : List Op) :
    ∀ (vh vh1 : lws_vhost) (ev : List Event) (F U : List Nat),
      (vh.tls_sessions.map (fun ts => ts.session) ++ F).Nodup →
      (∀ x ∈ vh.tls_sessions.map (fun ts => ts.session) ++ F, x ∈ U) →
      (supplied ops).Nodup → (∀ x ∈ supplied ops, x ∉ U) →
      run vh ops = Except.ok (vh1, ev) →
      (vh1.tls_sessions.map (fun ts => ts.session) ++ (F ++ freed ev)).Nodup := by
  induction ops with
  | nil =>
    intro vh vh1 ev F U h0 _ _ _ hrun
    simp only [run, Except.ok.injEq, Prod.mk.injEq] at hrun
    obtain ⟨rfl, rfl⟩ := hrun
    simpa [freed] using h0
  | cons op rest ih =>
    intro vh vh1 ev F U h0 hU hnd hfresh hrun
    obtain ⟨vhm, ev1, ev2, hs, hr, rfl⟩ := run_cons_ok vh vh1 op rest ev hrun
    have hsub : ∀ x ∈ supplied rest, x ∈ supplied (op :: rest) := by
      intro x hx
      cases op <;> simp [supplied, hx]
    have hnd1 : (supplied rest).Nodup := by
      cases op <;> simp [supplied] at hnd ⊢ <;> first | exact hnd | exact hnd.2
    rw [freed_append, ← List.append_assoc F]
    rcases effect_handles vh op vhm ev1 F (step_effect vh vhm op ev1 hs) with hp | hp
    · exact ih vhm vh1 ev2 (F ++ freed ev1) U (hp.nodup_iff.2 h0)
        (fun x hx => hU x (hp.subset hx)) hnd1 (fun x hx => hfresh x (hsub x hx)) hr
    · obtain ⟨m, tsi, h, K, ttl, rfl, hp⟩ := hp
      simp only [supplied, List.nodup_cons, List.mem_cons] at hnd hfresh
      have hh : h ∉ U := hfresh h (Or.inl rfl)
      refine ih vhm vh1 ev2 (F ++ freed ev1) (h :: U) (hp.nodup_iff.2 ?_) ?_ hnd.2 ?_ hr
      · rw [List.nodup_cons]
        exact ⟨fun hc => hh (hU h hc), h0⟩
      · intro x hx
        have hx1 := hp.subset hx
        simp only [List.mem_cons] at hx1 ⊢
        rcases hx1 with hx1 | hx1
        · exact Or.inl hx1
        · exact Or.inr (hU x hx1)
      · intro x hx hc
        simp only [List.mem_cons] at hc
        rcases hc with hc | hc
        · rw [hc] at hx
          exact hnd.1 hx
        · exact hfresh x (Or.inr hx) hc

/-! ## Key derivation -/

theorem digitChar_value (k : Nat) (hk : k < 10) :
    (Nat.digitChar k).toNat - 48 = k ∧ Nat.digitChar k ≠ ':' := by
  interval_cases k <;> exact ⟨rfl, by decide⟩

theorem digits_value_append (a : List Char) (c : Char) :
    digits_value (a ++ [c]) = digits_value a * 10 + (c.toNat - 48) := by
  simp [digits_value, List.foldl_append]

theorem toDigitsCore_spec (fuel : Nat) :
    ∀ (n : Nat) (ds : List Char), n < fuel →
      ∃ D, Nat.toDigitsCore 10 fuel n ds = D ++ ds ∧ digits_value D = n ∧ ':' ∉ D := by
  induction fuel with
  | zero =>
    intro n ds h
    omega
  | succ fuel ih =>
    intro n ds h
    obtain ⟨hv, hc⟩ := digitChar_value (n % 10) (Nat.mod_lt _ (by decide))
    by_cases h0 : n / 10 = 0
    · refine ⟨[Nat.digitChar (n % 10)], ?_, ?_, ?_⟩
      · simp [Nat.toDigitsCore, h0]
      · have hn : n % 10 = n := by omega
        simp only [digits_value, List.foldl_cons, List.foldl_nil, hv]
        omega
      · simpa using fun hcc => hc hcc.symm
    · have hlt : n / 10 < fuel := by omega
      obtain ⟨D, hD, hval, hno⟩ := ih (n / 10) (Nat.digitChar (n % 10) :: ds) hlt
      refine ⟨D ++ [Nat.digitChar (n % 10)], ?_, ?_, ?_⟩
      · simp [Nat.toDigitsCore, h0, hD]
      · rw [digits_value_append, hval, hv]
        omega
      · simp only [List.mem_append, List.mem_singleton, not_or]
        exact ⟨hno, fun hcc => hc hcc.symm⟩

theorem toDigits_spec (n : Nat) :
    digits_value (Nat.toDigits 10 n) = n ∧ ':' ∉ Nat.toDigits 10 n := by
  obtain ⟨D, hD, hval, hno⟩ := toDigitsCore_spec (n + 1) n [] (by omega)
  have h : Nat.toDigits 10 n = D := by simpa [Nat.toDigits] using hD
  rw [h]
  exact ⟨hval, hno⟩

theorem toDigits_length_port (p : Nat) (hp : p ≤ 65535) : (Nat.toDigits 10 p).length ≤ 5 := by
  have h := Nat.toDigitsCore_length 10 (by decide) (p + 1) p 5 (by omega) (by decide)
  simpa [Nat.toDigits] using h

theorem split_at_first_colon (d : List Char) :
    ∀ (d1 r r1 : List Char), ':' ∉ d → ':' ∉ d1 →
      d ++ ':' :: r = d1 ++ ':' :: r1 → d = d1 ∧ r = r1 := by
  induction d with
  | nil =>
    intro d1 r r1 _ h1 heq
    cases d1 with
    | nil => simpa using heq
    | cons c d1 =>
      simp only [List.nil_append, List.cons_append, List.cons.injEq] at heq
      exact absurd (by simp [← heq.1]) h1
  | cons c d ih =>
    intro d1 r r1 h0 h1 heq
    cases d1 with
    | nil =>
      simp only [List.nil_append, List.cons_append, List.cons.injEq] at heq
      exact absurd (by simp [heq.1]) h0
    | cons c1 d1 =>
      simp only [List.cons_append, List.cons.injEq] at heq
      obtain ⟨h2, h3⟩ := ih d1 r r1 (fun hc => h0 (by simp [hc])) (fun hc => h1 (by simp [hc]))
        heq.2
      exact ⟨by rw [heq.1, h2], h3⟩

theorem name_from_wsi_data (wsi : lws) (ha : wsi.sa46_peer.data.length ≤ 47)
    (hp : wsi.c_port ≤ 65535) :
    (lws_tls_session_name_from_wsi wsi (INET6_ADDRSTRLEN + 1 + 8 + 1)).data =
      wsi.sa46_peer.data ++ ':' :: Nat.toDigits 10 wsi.c_port := by
  have hlen := toDigits_length_port wsi.c_port hp
  have h1 : List.take 47 wsi.sa46_peer.data = wsi.sa46_peer.data :=
    List.take_of_length_le ha
  have h2 : List.take 7 (':' :: Nat.toDigits 10 wsi.c_port) =
      ':' :: Nat.toDigits 10 wsi.c_port :=
    List.take_of_length_le (by simp; omega)
  simp only [lws_tls_session_name_from_wsi, lws_sa46_write_numeric_address, lws_snprintf_port,
    INET6_ADDRSTRLEN]
  rw [h1, h2]

theorem split_at_last_colon (a a1 d d1 : List Char) (hd : ':' ∉ d) (hd1 : ':' ∉ d1)
    (heq : a ++ ':' :: d = a1 ++ ':' :: d1) : a = a1 ∧ d = d1 := by
  have hr := congrArg List.reverse heq
  simp only [List.reverse_append, List.reverse_cons, List.append_assoc, List.singleton_append]
    at hr
  obtain ⟨h1, h2⟩ := split_at_first_colon d.reverse d1.reverse a.reverse a1.reverse
    (by simpa using hd) (by simpa using hd1) hr
  exact ⟨List.reverse_injective h2, List.reverse_injective h1⟩

theorem create_events_locked (vh : lws_vhost) (m : Bool) (tsi h : Nat) (K : String)
    (ttl : Nat) :
    mutations_locked false (__lws_tls_session_create vh m tsi h K ttl).2.2 = true := by
  by_cases hen : vh.cache_enabled = true
  · rcases split_first_name vh.tls_sessions K with hnone | ⟨pre, ts, post, hl, hts, hpre⟩
    · cases m with
      | false =>
        rw [create_fail vh tsi h K ttl hen hnone]
        rfl
      | true =>
        rw [create_new vh tsi h K ttl hen hnone]
        rfl
    · rw [create_update vh m tsi h K ttl pre post ts hen hl hts hpre]
      rfl
  · rw [create_disabled vh m tsi h K ttl (by simpa using hen)]
    rfl

theorem ttl_exp_events_locked (vh : lws_vhost) (i : Nat) (vh1 : lws_vhost) (ev : List Event)
    (h : lws_tls_session_ttl_exp vh i = Except.ok (vh1, ev)) :
    mutations_locked false ev = true := by
  cases hg : vh.tls_sessions[i]? with
  | none => simp [lws_tls_session_ttl_exp, hg] at h
  | some y =>
    obtain ⟨p1, p2, hl, hi⟩ := getElem?_split _ _ _ hg
    subst hi
    by_cases hu : y.in_use = true
    · rw [ttl_exp_mark vh p1 p2 y hl hu] at h
      simp only [Except.ok.injEq, Prod.mk.injEq] at h
      obtain ⟨_, rfl⟩ := h
      rfl
    · rw [ttl_exp_destroy vh p1 p2 y hl (by simpa using hu)] at h
      simp only [Except.ok.injEq, Prod.mk.injEq] at h
      obtain ⟨_, rfl⟩ := h
      rfl

/-! ## Claims on reachable states, destruction, reuse and the cache option -/

/-- C11: in every state reached from an empty list by a sequence of
create/update, reuse, TTL callback, release and teardown operations, no two
members of the list have the same key, whatever the cache option is. -/
theorem reachable_keys_unique (en : Bool) (ops : List Op) (vh : lws_vhost) (ev : List Event)
    (hrun : run ⟨en, []⟩ ops = Except.ok (vh, ev)) :
    (vh.tls_sessions.map (fun e => e.name)).Nodup :=
  run_invariant (fun v => (v.tls_sessions.map (fun e => e.name)).Nodup)
    effect_keys_nodup ops ⟨en, []⟩ vh ev (by simp) hrun

theorem reachable_keys_unique_witness :
    ((lws_vhost.mk true [⟨3, true, true, "a"⟩]).tls_sessions.map (fun e => e.name)).Nodup :=
  reachable_keys_unique true
    [Op.create true 0 1 "a" 300, Op.create true 0 2 "b" 300, Op.create true 0 3 "a" 300,
     Op.release ⟨true, 2, "192.0.2.1", 443, 0⟩, Op.fire 0,
     Op.reuse ⟨true, 0, "192.0.2.7", 443, 0⟩, Op.teardown]
    ⟨true, [⟨3, true, true, "a"⟩]⟩
    [Event.lws_vhost_lock, Event.lws_dll2_add_tail "a", Event.lws_vhost_unlock,
     Event.lws_sul_schedule 0 "a" 300000000,
     Event.lws_vhost_lock, Event.lws_dll2_add_tail "b", Event.lws_vhost_unlock,
     Event.lws_sul_schedule 0 "b" 300000000,
     Event.SSL_SESSION_free 1, Event.lws_sul_schedule 0 "a" 300000000,
     Event.lws_sul_cancel "b", Event.SSL_SESSION_free 2, Event.lws_dll2_remove "b",
     Event.lws_free "b"]
    rfl

theorem step_disabled_empty (op : Op) (vh1 : lws_vhost) (ev : List Event)
    (hstep : step ⟨false, []⟩ op = Except.ok (vh1, ev)) : vh1 = ⟨false, []⟩ ∧ ev = [] := by
  cases op with
  | create m tsi h K ttl =>
    simp only [step, create_disabled ⟨false, []⟩ m tsi h K ttl rfl, Except.ok.injEq,
      Prod.mk.injEq] at hstep
    obtain ⟨rfl, rfl⟩ := hstep
    exact ⟨rfl, rfl⟩
  | fire i => simp [step, lws_tls_session_ttl_exp] at hstep
  | release wsi =>
    simp only [step, release_guard wsi ⟨false, []⟩ (Or.inr rfl), Except.ok.injEq,
      Prod.mk.injEq] at hstep
    obtain ⟨rfl, rfl⟩ := hstep
    exact ⟨rfl, rfl⟩
  | teardown =>
    simp only [step, vh_destroy_eq, Except.ok.injEq, Prod.mk.injEq] at hstep
    obtain ⟨rfl, rfl⟩ := hstep
    exact ⟨rfl, rfl⟩
  | reuse wsi =>
    simp only [step] at hstep
    obtain ⟨h1, h2 | ⟨s, h2⟩⟩ := reuse_cases wsi ⟨false, []⟩ vh1 ev hstep
    · exact ⟨h1, h2⟩
    · rw [h1, h2] at hstep
      simp only [lws_tls_reuse_session, __lws_tls_session_lookup_by_name] at hstep
      split at hstep <;> simp at hstep

theorem run_disabled_empty (ops : List Op) :
    ∀ (vh1 : lws_vhost) (ev : List Event),
      run ⟨false, []⟩ ops = Except.ok (vh1, ev) → vh1 = ⟨false, []⟩ ∧ ev = [] := by
  induction ops with
  | nil =>
    intro vh1 ev hrun
    simp only [run, Except.ok.injEq, Prod.mk.injEq] at hrun
    obtain ⟨rfl, rfl⟩ := hrun
    exact ⟨rfl, rfl⟩
  | cons op rest ih =>
    intro vh1 ev hrun
    obtain ⟨vhm, ev1, ev2, hs, hr, rfl⟩ := run_cons_ok _ vh1 op rest ev hrun
    obtain ⟨rfl, rfl⟩ := step_disabled_empty op vhm ev1 hs
    obtain ⟨h1, h2⟩ := ih vh1 ev2 hr
    exact ⟨h1, by simp [h2]⟩

/-- C12: destruction returns only for a member that is not in use, and the
operations that destroy never fail its assertion: the TTL callback and the
teardown never end in an assertion failure, and a release either returns or
fails its own assertion, the one on a matched member that was already not in
use, which is checked before the member is cleared and destruction is
reached. -/
theorem destroy_only_unused :
    (∀ (vh : lws_vhost) (i : Nat) (vh1 : lws_vhost) (ev : List Event),
      __lws_tls_session_destroy vh i = Except.ok (vh1, ev) →
      ∃ ts, vh.tls_sessions[i]? = some ts ∧ ts.in_use = false) ∧
    (∀ (vh : lws_vhost) (i : Nat),
      lws_tls_session_ttl_exp vh i ≠ Except.error Fault.assertion) ∧
    (∀ vh : lws_vhost, lws_tls_session_vh_destroy vh ≠ Except.error Fault.assertion) ∧
    (∀ (wsi : lws) (vh : lws_vhost),
      lws_tls_session_release wsi vh = Except.error Fault.assertion →
      ∃ i ts, lws_dll2_find (fun x => decide (x.session = wsi.ssl_session)) vh.tls_sessions
          = some (i, ts) ∧ ts.in_use = false) := by
  refine ⟨?_, ?_, ?_, ?_⟩
  · intro vh i vh1 ev h
    cases hg : vh.tls_sessions[i]? with
    | none => simp [__lws_tls_session_destroy, hg] at h
    | some ts =>
      refine ⟨ts, rfl, ?_⟩
      by_contra hu
      simp only [__lws_tls_session_destroy, hg] at h
      simp [hu] at h
  · intro vh i h
    cases hg : vh.tls_sessions[i]? with
    | none => simp [lws_tls_session_ttl_exp, hg] at h
    | some y =>
      obtain ⟨p1, p2, hl, hi⟩ := getElem?_split _ _ _ hg
      subst hi
      by_cases hu : y.in_use = true
      · rw [ttl_exp_mark vh p1 p2 y hl hu] at h
        simp at h
      · rw [ttl_exp_destroy vh p1 p2 y hl (by simpa using hu)] at h
        simp at h
  · intro vh h
    rw [vh_destroy_eq] at h
    simp at h
  · intro wsi vh h
    by_cases hw : wsi.a_vhost = true
    · by_cases hen : vh.cache_enabled = true
      · cases hf : lws_dll2_find (fun x => decide (x.session = wsi.ssl_session))
            vh.tls_sessions with
        | none =>
          rw [find_none] at hf
          rw [release_miss wsi vh (fun x hx => by simpa using hf x hx)] at h
          simp at h
        | some r =>
          obtain ⟨pre, post, hl, _, hts0, hpre0⟩ := find_some _ _ r.1 r.2 hf
          have hts : r.2.session = wsi.ssl_session := by simpa using hts0
          have hpre : ∀ x ∈ pre, x.session ≠ wsi.ssl_session := fun x hx => by
            simpa using hpre0 x hx
          by_cases hu : r.2.in_use = true
          · by_cases hx : r.2.expire_on_unused = true
            · rw [release_expire wsi vh pre post r.2 hw hen hl hts hpre hu hx] at h
              simp at h
            · rw [release_keep wsi vh pre post r.2 hw hen hl hts hpre hu
                (by simpa using hx)] at h
              simp at h
          · exact ⟨r.1, r.2, rfl, by simpa using hu⟩
      · rw [release_guard wsi vh (Or.inr (by simpa using hen))] at h
        simp at h
    · rw [release_guard wsi vh (Or.inl (by simpa using hw))] at h
      simp at h

theorem destroy_only_unused_witness :
    (∃ ts, (lws_vhost.mk true [⟨1, true, false, "a"⟩, ⟨2, false, false, "b"⟩]).tls_sessions[1]?
        = some ts ∧ ts.in_use = false) ∧
    (∃ i ts, lws_dll2_find (fun x => decide (x.session = 2))
        (lws_vhost.mk true [⟨1, true, false, "a"⟩, ⟨2, false, false, "b"⟩]).tls_sessions
          = some (i, ts) ∧ ts.in_use = false) :=
  ⟨destroy_only_unused.1 ⟨true, [⟨1, true, false, "a"⟩, ⟨2, false, false, "b"⟩]⟩ 1
      ⟨true, [⟨1, true, false, "a"⟩]⟩ (destroy_events ⟨2, false, false, "b"⟩) rfl,
   destroy_only_unused.2.2.2 ⟨true, 2, "192.0.2.1", 443, 0⟩
      ⟨true, [⟨1, true, false, "a"⟩, ⟨2, false, false, "b"⟩]⟩ rfl⟩

/-- C13: for a connection bound to a vhost, reuse returns the vhost as it was
and frees nothing. When the lookup of the connection's key finds no member it
calls no collaborator; when it finds a member that is not in use it attaches
exactly that member's session; when it finds a member in use it ends in an
assertion failure, having attached nothing. -/
theorem reuse_effect (wsi : lws) (vh : lws_vhost) (hw : wsi.a_vhost = true) :
    (__lws_tls_session_lookup_by_name vh
        (lws_tls_session_name_from_wsi wsi (INET6_ADDRSTRLEN + 1 + 8 + 1)) = none →
      lws_tls_reuse_session wsi vh = Except.ok (vh, [])) ∧
    (∀ (i : Nat) (ts : lws_tls_sco_t),
      __lws_tls_session_lookup_by_name vh
        (lws_tls_session_name_from_wsi wsi (INET6_ADDRSTRLEN + 1 + 8 + 1)) = some (i, ts) →
      ts.in_use = false →
      lws_tls_reuse_session wsi vh = Except.ok (vh, [Event.SSL_set_session ts.session]) ∧
      attached [Event.SSL_set_session ts.session] = [ts.session] ∧
      freed [Event.SSL_set_session ts.session] = []) ∧
    (∀ (i : Nat) (ts : lws_tls_sco_t),
      __lws_tls_session_lookup_by_name vh
        (lws_tls_session_name_from_wsi wsi (INET6_ADDRSTRLEN + 1 + 8 + 1)) = some (i, ts) →
      ts.in_use = true →
      lws_tls_reuse_session wsi vh = Except.error Fault.assertion) ∧
    (∀ (vh1 : lws_vhost) (ev : List Event),
      lws_tls_reuse_session wsi vh = Except.ok (vh1, ev) → vh1 = vh ∧ freed ev = []) := by
  refine ⟨?_, ?_, ?_, ?_⟩
  · intro h
    simp only [lws_tls_reuse_session, h]
    simp [hw]
  · intro i ts h hu
    refine ⟨?_, rfl, rfl⟩
    simp only [lws_tls_reuse_session, h]
    simp [hw, hu]
  · intro i ts h hu
    simp only [lws_tls_reuse_session, h]
    simp [hw, hu]
  · intro vh1 ev h
    obtain ⟨h1, h2 | ⟨s, h2⟩⟩ := reuse_cases wsi vh vh1 ev h
    · exact ⟨h1, by rw [h2]; rfl⟩
    · exact ⟨h1, by rw [h2]; rfl⟩

theorem reuse_effect_witness :
    lws_tls_reuse_session ⟨true, 0, "203.0.113.5", 443, 0⟩ ⟨true, [⟨1, true, false, "a"⟩]⟩ =
      Except.ok (⟨true, [⟨1, true, false, "a"⟩]⟩, []) ∧
    lws_tls_reuse_session ⟨true, 0, "203.0.113.5", 443, 0⟩
        ⟨true, [⟨1, true, false, "a"⟩, ⟨5, false, false, "203.0.113.5:443"⟩]⟩ =
      Except.ok (⟨true, [⟨1, true, false, "a"⟩, ⟨5, false, false, "203.0.113.5:443"⟩]⟩,
        [Event.SSL_set_session 5]) ∧
    lws_tls_reuse_session ⟨true, 0, "203.0.113.5", 443, 0⟩
        ⟨true, [⟨5, true, false, "203.0.113.5:443"⟩]⟩ = Except.error Fault.assertion :=
  ⟨(reuse_effect ⟨true, 0, "203.0.113.5", 443, 0⟩ ⟨true, [⟨1, true, false, "a"⟩]⟩ rfl).1 rfl,
   ((reuse_effect ⟨true, 0, "203.0.113.5", 443, 0⟩
      ⟨true, [⟨1, true, false, "a"⟩, ⟨5, false, false, "203.0.113.5:443"⟩]⟩ rfl).2.1
      1 ⟨5, false, false, "203.0.113.5:443"⟩ rfl rfl).1,
   (reuse_effect ⟨true, 0, "203.0.113.5", 443, 0⟩
      ⟨true, [⟨5, true, false, "203.0.113.5:443"⟩]⟩ rfl).2.2.1
      0 ⟨5, true, false, "203.0.113.5:443"⟩ rfl rfl⟩

/-- C14, as stated, fails: teardown does not look at the cache option, so with
the option unset it still destroys a member that is not in use and frees its
session. -/
theorem teardown_disabled_counterexample :
    lws_tls_session_vh_destroy ⟨false, [⟨5, false, false, "k"⟩]⟩ =
      Except.ok (⟨false, []⟩,
        [Event.lws_sul_cancel "k", Event.SSL_SESSION_free 5, Event.lws_dll2_remove "k",
         Event.lws_free "k"]) :=
  rfl

/-- C14, amended: with the cache option unset, release, reuse (of a bound
connection) and create/update return the vhost as it was and call no
collaborator, whatever the list holds. Teardown is not gated by the option: it
leaves the members in use and destroys the others, so it changes nothing when
every member is in use, in particular on the empty list; and the empty list
is the only one reached from an empty list while the option is unset. -/
theorem cache_disabled_ops (wsi : lws) (vh : lws_vhost) (m : Bool) (tsi h : Nat) (K : String)
    (ttl : Nat) (hdis : vh.cache_enabled = false) :
    lws_tls_session_release wsi vh = Except.ok (vh, []) ∧
    (wsi.a_vhost = true → lws_tls_reuse_session wsi vh = Except.ok (vh, [])) ∧
    __lws_tls_session_create vh m tsi h K ttl = (0, vh, []) ∧
    lws_tls_session_vh_destroy vh =
      Except.ok ({ vh with tls_sessions := vh.tls_sessions.filter (fun ts => ts.in_use) },
        teardown_events vh.tls_sessions) ∧
    ((∀ e ∈ vh.tls_sessions, e.in_use = true) →
      lws_tls_session_vh_destroy vh = Except.ok (vh, [])) ∧
    (∀ (ops : List Op) (vh1 : lws_vhost) (ev : List Event),
      run ⟨false, []⟩ ops = Except.ok (vh1, ev) → vh1 = ⟨false, []⟩ ∧ ev = []) := by
  refine ⟨release_guard wsi vh (Or.inr hdis), ?_, create_disabled vh m tsi h K ttl hdis,
    vh_destroy_eq vh, ?_, fun ops vh1 ev hrun => run_disabled_empty ops vh1 ev hrun⟩
  · intro hw
    simp [lws_tls_reuse_session, __lws_tls_session_lookup_by_name, hdis, hw]
  · intro hall
    rw [vh_destroy_eq]
    have h1 : vh.tls_sessions.filter (fun ts => ts.in_use) = vh.tls_sessions := by
      rw [List.filter_eq_self]
      exact hall
    have h2 : ∀ l : List lws_tls_sco_t, (∀ e ∈ l, e.in_use = true) → teardown_events l = [] := by
      intro l
      induction l with
      | nil => intro _; rfl
      | cons a l ih =>
        intro hl
        simp [teardown_events, hl a (by simp), ih (fun e he => hl e (by simp [he]))]
    rw [h1, h2 _ hall]

theorem cache_disabled_ops_witness :
    lws_tls_session_release ⟨true, 5, "203.0.113.5", 443, 0⟩
        ⟨false, [⟨5, true, true, "203.0.113.5:443"⟩]⟩ =
      Except.ok (⟨false, [⟨5, true, true, "203.0.113.5:443"⟩]⟩, []) ∧
    lws_tls_reuse_session ⟨true, 5, "203.0.113.5", 443, 0⟩
        ⟨false, [⟨5, true, true, "203.0.113.5:443"⟩]⟩ =
      Except.ok (⟨false, [⟨5, true, true, "203.0.113.5:443"⟩]⟩, []) ∧
    lws_tls_session_vh_destroy ⟨false, [⟨5, true, true, "203.0.113.5:443"⟩]⟩ =
      Except.ok (⟨false, [⟨5, true, true, "203.0.113.5:443"⟩]⟩, []) :=
  ⟨(cache_disabled_ops ⟨true, 5, "203.0.113.5", 443, 0⟩
      ⟨false, [⟨5, true, true, "203.0.113.5:443"⟩]⟩ true 0 7 "k" 300 rfl).1,
   (cache_disabled_ops ⟨true, 5, "203.0.113.5", 443, 0⟩
      ⟨false, [⟨5, true, true, "203.0.113.5:443"⟩]⟩ true 0 7 "k" 300 rfl).2.1 rfl,
   (cache_disabled_ops ⟨true, 5, "203.0.113.5", 443, 0⟩
      ⟨false, [⟨5, true, true, "203.0.113.5:443"⟩]⟩ true 0 7 "k" 300 rfl).2.2.2.2.1
      (by decide)⟩

/-! ## Claims on the key, the timers, the lock and the handles -/

/-- C15: with the callers' buffer of `INET6_ADDRSTRLEN + 1 + 8 + 1` = 56 bytes, an
address text of at most 56 - 9 = 47 characters and a port of at most 65535, the
key is the address text, a colon and the port in decimal, nothing being cut;
the suffix with its terminator takes at most 7 bytes and the key with its
terminator at most 56. -/
theorem key_exact (wsi : lws)
    (ha : wsi.sa46_peer.length ≤ INET6_ADDRSTRLEN + 1 + 8 + 1 - 9) (hp : wsi.c_port ≤ 65535) :
    lws_tls_session_name_from_wsi wsi (INET6_ADDRSTRLEN + 1 + 8 + 1) =
      wsi.sa46_peer ++ ":" ++ Nat.repr wsi.c_port ∧
    (lws_tls_session_name_from_wsi wsi (INET6_ADDRSTRLEN + 1 + 8 + 1)).data =
      wsi.sa46_peer.data ++ ':' :: Nat.toDigits 10 wsi.c_port ∧
    (':' :: Nat.toDigits 10 wsi.c_port).length + 1 ≤ 7 ∧
    (lws_tls_session_name_from_wsi wsi (INET6_ADDRSTRLEN + 1 + 8 + 1)).length + 1 ≤
      INET6_ADDRSTRLEN + 1 + 8 + 1 := by
  have ha1 : wsi.sa46_peer.data.length ≤ 47 := ha
  have hd := name_from_wsi_data wsi ha1 hp
  have hlen := toDigits_length_port wsi.c_port hp
  clear ha
  refine ⟨?_, hd, ?_, ?_⟩
  · apply String.ext
    rw [hd]
    simp only [String.data_append, Nat.repr]
    have hs : (Nat.toDigits 10 wsi.c_port).asString.data = Nat.toDigits 10 wsi.c_port := rfl
    rw [hs]
    simp
  · simp only [List.length_cons]
    omega
  · have hl : (lws_tls_session_name_from_wsi wsi (INET6_ADDRSTRLEN + 1 + 8 + 1)).length =
        (lws_tls_session_name_from_wsi wsi (INET6_ADDRSTRLEN + 1 + 8 + 1)).data.length := rfl
    rw [hl, hd]
    simp only [List.length_append, List.length_cons, INET6_ADDRSTRLEN]
    omega

theorem key_exact_witness :
    lws_tls_session_name_from_wsi ⟨true, 0, "2001:db8::1", 65535, 0⟩
      (INET6_ADDRSTRLEN + 1 + 8 + 1) = "2001:db8::1:65535" :=
  (key_exact ⟨true, 0, "2001:db8::1", 65535, 0⟩ (by decide) (by decide)).1

/-- C20: for address texts of at most 47 characters (colons allowed) and ports
of at most 65535, equal keys come from equal address texts and equal ports. -/
theorem key_injective (w w1 : lws) (ha : w.sa46_peer.length ≤ 47)
    (ha1 : w1.sa46_peer.length ≤ 47) (hp : w.c_port ≤ 65535) (hp1 : w1.c_port ≤ 65535)
    (hkey : lws_tls_session_name_from_wsi w (INET6_ADDRSTRLEN + 1 + 8 + 1) =
      lws_tls_session_name_from_wsi w1 (INET6_ADDRSTRLEN + 1 + 8 + 1)) :
    w.sa46_peer = w1.sa46_peer ∧ w.c_port = w1.c_port := by
  have hd := congrArg String.data hkey
  rw [name_from_wsi_data w ha hp, name_from_wsi_data w1 ha1 hp1] at hd
  obtain ⟨hv, hno⟩ := toDigits_spec w.c_port
  obtain ⟨hv1, hno1⟩ := toDigits_spec w1.c_port
  obtain ⟨h1, h2⟩ := split_at_last_colon _ _ _ _ hno hno1 hd
  refine ⟨String.ext h1, ?_⟩
  rw [← hv, ← hv1, h2]

theorem key_injective_witness :
    (lws.mk true 0 "2001:db8::1" 443 0).sa46_peer = (lws.mk false 9 "2001:db8::1" 443 3).sa46_peer ∧
    (lws.mk true 0 "2001:db8::1" 443 0).c_port = (lws.mk false 9 "2001:db8::1" 443 3).c_port :=
  key_injective ⟨true, 0, "2001:db8::1", 443, 0⟩ ⟨false, 9, "2001:db8::1", 443, 3⟩
    (by decide) (by decide) (by decide) (by decide) (by decide)

/-- C16: in every state reached from an empty list, every entry whose timer is
armed (scheduled and not cancelled since) is a member of the list; and every
destruction that returns calls `lws_sul_cancel` on the member first, before it
frees the session, unlinks the member and frees it. -/
theorem armed_timers_in_store (en : Bool) (ops : List Op) (vh : lws_vhost) (ev : List Event)
    (hrun : run ⟨en, []⟩ ops = Except.ok (vh, ev)) :
    (∀ n ∈ pending_timers [] ev, ∃ e ∈ vh.tls_sessions, e.name = n) ∧
    (∀ (w : lws_vhost) (i : Nat) (w1 : lws_vhost) (dv : List Event),
      __lws_tls_session_destroy w i = Except.ok (w1, dv) →
      ∃ ts, w.tls_sessions[i]? = some ts ∧
        dv = [Event.lws_sul_cancel ts.name, Event.SSL_SESSION_free ts.session,
              Event.lws_dll2_remove ts.name, Event.lws_free ts.name] ∧
        w1.tls_sessions = w.tls_sessions.eraseIdx i) := by
  refine ⟨run_timers ops ⟨en, []⟩ vh ev [] (by simp) hrun, ?_⟩
  intro w i w1 dv h
  cases hg : w.tls_sessions[i]? with
  | none => simp [__lws_tls_session_destroy, hg] at h
  | some ts =>
    refine ⟨ts, rfl, ?_⟩
    simp only [__lws_tls_session_destroy, hg] at h
    by_cases hu : ts.in_use = true
    · simp [hu] at h
    · simp only [hu, Bool.false_eq_true, if_false, Except.ok.injEq, Prod.mk.injEq] at h
      obtain ⟨rfl, rfl⟩ := h
      exact ⟨rfl, rfl⟩

theorem armed_timers_in_store_witness :
    ∃ e ∈ (lws_vhost.mk true [⟨1, true, false, "a"⟩]).tls_sessions, e.name = "a" :=
  (armed_timers_in_store true
    [Op.create true 0 1 "a" 300, Op.create true 0 2 "b" 300,
     Op.release ⟨true, 2, "192.0.2.1", 443, 0⟩, Op.fire 1]
    ⟨true, [⟨1, true, false, "a"⟩]⟩
    [Event.lws_vhost_lock, Event.lws_dll2_add_tail "a", Event.lws_vhost_unlock,
     Event.lws_sul_schedule 0 "a" 300000000,
     Event.lws_vhost_lock, Event.lws_dll2_add_tail "b", Event.lws_vhost_unlock,
     Event.lws_sul_schedule 0 "b" 300000000,
     Event.lws_vhost_lock, Event.lws_sul_cancel "b", Event.SSL_SESSION_free 2,
     Event.lws_dll2_remove "b", Event.lws_free "b", Event.lws_vhost_unlock]
    rfl).1 "a" (by decide)

/-- C17: the tail insertion of create/update and the removal reached from the
TTL callback happen between `lws_vhost_lock` and `lws_vhost_unlock`; the
removal reached from release and from teardown happens with no lock taken by
the operation. -/
theorem list_mutations_lock_trace :
    (∀ (vh : lws_vhost) (m : Bool) (tsi h : Nat) (K : String) (ttl : Nat),
      mutations_locked false (__lws_tls_session_create vh m tsi h K ttl).2.2 = true) ∧
    (∀ (vh : lws_vhost) (i : Nat) (vh1 : lws_vhost) (ev : List Event),
      lws_tls_session_ttl_exp vh i = Except.ok (vh1, ev) → mutations_locked false ev = true) ∧
    lws_tls_session_release ⟨true, 7, "192.0.2.1", 443, 0⟩ ⟨true, [⟨7, true, true, "k"⟩]⟩ =
      Except.ok (⟨true, []⟩,
        [Event.lws_sul_cancel "k", Event.SSL_SESSION_free 7, Event.lws_dll2_remove "k",
         Event.lws_free "k"]) ∧
    lws_tls_session_vh_destroy ⟨true, [⟨5, false, false, "k"⟩]⟩ =
      Except.ok (⟨true, []⟩,
        [Event.lws_sul_cancel "k", Event.SSL_SESSION_free 5, Event.lws_dll2_remove "k",
         Event.lws_free "k"]) ∧
    (∀ ts : lws_tls_sco_t, mutations_locked false (destroy_events ts) = false) :=
  ⟨create_events_locked, ttl_exp_events_locked, rfl, rfl, fun _ => rfl⟩

theorem list_mutations_lock_trace_witness :
    mutations_locked false
      [Event.lws_vhost_lock, Event.lws_sul_cancel "a", Event.SSL_SESSION_free 1,
       Event.lws_dll2_remove "a", Event.lws_free "a", Event.lws_vhost_unlock] = true :=
  list_mutations_lock_trace.2.1 ⟨true, [⟨1, false, false, "a"⟩]⟩ 0 ⟨true, []⟩
    [Event.lws_vhost_lock, Event.lws_sul_cancel "a", Event.SSL_SESSION_free 1,
     Event.lws_dll2_remove "a", Event.lws_free "a", Event.lws_vhost_unlock] rfl

/-- C18: in every sequence run from an empty list in which the create/update
operations supply pairwise different session handles, no handle is freed twice,
no member of the list holds a freed handle, and no two members hold the same
handle. -/
theorem handles_freed_once (en : Bool) (ops : List Op) (vh : lws_vhost) (ev : List Event)
    (hfresh : (supplied ops).Nodup) (hrun : run ⟨en, []⟩ ops = Except.ok (vh, ev)) :
    (freed ev).Nodup ∧ (∀ e ∈ vh.tls_sessions, e.session ∉ freed ev) ∧
    (vh.tls_sessions.map (fun ts => ts.session)).Nodup := by
  have h := run_handles ops ⟨en, []⟩ vh ev [] [] (by simp) (by simp) hfresh (by simp) hrun
  simp only [List.nil_append] at h
  rw [List.nodup_append] at h
  refine ⟨h.2.1, ?_, h.1⟩
  intro e he hf
  exact h.2.2 (List.mem_map.2 ⟨e, he, rfl⟩) hf

theorem handles_freed_once_witness :
    (freed [Event.lws_vhost_lock, Event.lws_dll2_add_tail "a", Event.lws_vhost_unlock,
       Event.lws_sul_schedule 0 "a" 300000000,
       Event.SSL_SESSION_free 1, Event.lws_sul_schedule 0 "a" 300000000,
       Event.lws_vhost_lock, Event.lws_dll2_add_tail "b", Event.lws_vhost_unlock,
       Event.lws_sul_schedule 0 "b" 300000000,
       Event.lws_sul_cancel "a", Event.SSL_SESSION_free 2, Event.lws_dll2_remove "a",
       Event.lws_free "a"]).Nodup ∧
    (∀ e ∈ (lws_vhost.mk true [⟨3, true, false, "b"⟩]).tls_sessions,
      e.session ∉ freed [Event.lws_vhost_lock, Event.lws_dll2_add_tail "a",
       Event.lws_vhost_unlock, Event.lws_sul_schedule 0 "a" 300000000,
       Event.SSL_SESSION_free 1, Event.lws_sul_schedule 0 "a" 300000000,
       Event.lws_vhost_lock, Event.lws_dll2_add_tail "b", Event.lws_vhost_unlock,
       Event.lws_sul_schedule 0 "b" 300000000,
       Event.lws_sul_cancel "a", Event.SSL_SESSION_free 2, Event.lws_dll2_remove "a",
       Event.lws_free "a"]) ∧
    ((lws_vhost.mk true [⟨3, true, false, "b"⟩]).tls_sessions.map
      (fun ts => ts.session)).Nodup :=
  handles_freed_once true
    [Op.create true 0 1 "a" 300, Op.create true 0 2 "a" 300, Op.create true 0 3 "b" 300,
     Op.fire 0, Op.release ⟨true, 2, "192.0.2.1", 443, 0⟩]
    ⟨true, [⟨3, true, false, "b"⟩]⟩
    [Event.lws_vhost_lock, Event.lws_dll2_add_tail "a", Event.lws_vhost_unlock,
     Event.lws_sul_schedule 0 "a" 300000000,
     Event.SSL_SESSION_free 1, Event.lws_sul_schedule 0 "a" 300000000,
     Event.lws_vhost_lock, Event.lws_dll2_add_tail "b", Event.lws_vhost_unlock,
     Event.lws_sul_schedule 0 "b" 300000000,
     Event.lws_sul_cancel "a", Event.SSL_SESSION_free 2, Event.lws_dll2_remove "a",
     Event.lws_free "a"]
    (by decide) rfl

/-- C19: in every state reached from an empty list by a sequence of
create/update, reuse, TTL callback, release and teardown operations, every
member with `expire_on_unused` set is in use. -/
theorem reachable_expire_in_use (en : Bool) (ops : List Op) (vh : lws_vhost)
    (ev : List Event) (hrun : run ⟨en, []⟩ ops = Except.ok (vh, ev)) :
    ∀ e ∈ vh.tls_sessions, e.expire_on_unused = true → e.in_use = true :=
  run_invariant (fun v => ∀ e ∈ v.tls_sessions, e.expire_on_unused = true → e.in_use = true)
    effect_expire_in_use ops ⟨en, []⟩ vh ev (by simp) hrun

theorem reachable_expire_in_use_witness :
    (lws_tls_sco_t.mk 1 true true "a").in_use = true :=
  reachable_expire_in_use true
    [Op.create true 0 1 "a" 300, Op.create true 0 2 "b" 300, Op.fire 0,
     Op.release ⟨true, 2, "192.0.2.1", 443, 0⟩]
    ⟨true, [⟨1, true, true, "a"⟩, ⟨2, false, false, "b"⟩]⟩
    [Event.lws_vhost_lock, Event.lws_dll2_add_tail "a", Event.lws_vhost_unlock,
     Event.lws_sul_schedule 0 "a" 300000000,
     Event.lws_vhost_lock, Event.lws_dll2_add_tail "b", Event.lws_vhost_unlock,
     Event.lws_sul_schedule 0 "b" 300000000]
    rfl ⟨1, true, true, "a"⟩ (by decide) rfl

end TlsSession
